/-
Verification of the dr-rds-share-snapshot tool.

The repository consists of two batch scripts:
  * src_acc_take_share_rds_snapshot.py       (the source-side exporter)
  * dst_acc_copy_shared_rds_snapshot_to_local.py  (the destination-side importer)

This file gives a shallow embedding of the pure logic of those scripts
(snapshot selection, identifier derivation, the idempotent copy step, the
readiness polling loop, retention pruning and the run validator / notifier)
and proves or refutes the specification claims about them.

Conventions of the embedding:
  * AWS snapshot records are `Snapshot` values; the listings returned by
    `describe_db_snapshots` become plain Lean lists.
  * Python `datetime` creation timestamps become `Option Nat` (`none` for a
    record lacking the `SnapshotCreateTime` key; a present datetime is always
    truthy in Python, matching `Option.isSome`).
  * Code paths that raise an unhandled Python exception are modelled by
    `Option`/`none` results.
-/
import Mathlib

namespace DrRds

/-- An RDS snapshot record, restricted to the keys the scripts read. -/
structure Snapshot where
  dbSnapshotIdentifier : String
  dbSnapshotArn : String
  dbInstanceIdentifier : String
  snapshotCreateTime : Option Nat
  deriving Repr, DecidableEq

/-- Timestamp of a snapshot, defaulting to 0; only used in statements whose
hypotheses guarantee the timestamp is present. -/
def tsOf (s : Snapshot) : Nat :=
  s.snapshotCreateTime.getD 0

/-! ## Python `str.format` with positional indices

Both scripts build their failure notification with `str.format`.  A format
string is modelled as a list of pieces: literal text and positional
placeholders.  Looking up a placeholder index that is out of range raises
`IndexError` in Python; the model returns `none` there. -/

/-- One piece of a Python format string: a literal or a positional
placeholder. -/
inductive FmtPiece where
  | lit : String → FmtPiece
  | arg : Nat → FmtPiece
  deriving Repr, DecidableEq

/-- Python `str.format` with positional arguments: `none` models the
`IndexError` raised for an out-of-range replacement index. -/
def pyFormat (pieces : List FmtPiece) (args : List String) : Option String :=
  match pieces with
  | [] => some ""
  | .lit s :: rest => (pyFormat rest args).map (fun r => s ++ r)
  | .arg i :: rest =>
    match args.get? i with
    | none => none
    | some a => (pyFormat rest args).map (fun r => a ++ r)

/-- The exporter's notification template (src_acc_take_share_rds_snapshot.py
lines 78-80): placeholders 0 and 1. -/
def srcSnsTemplate : List FmtPiece :=
  [.lit "COPY_RDS_SNAPSHOT_COUNT_ERROR sharing RDS snapshots completed with error: Expected snapshot count=",
   .arg 0,
   .lit " not equal to actual snapshot count=",
   .arg 1,
   .lit ", exiting"]

/-- The importer's notification template
(dst_acc_copy_shared_rds_snapshot_to_local.py lines 73-75): placeholders 1
and 2, although only two arguments are supplied. -/
def dstSnsTemplate : List FmtPiece :=
  [.lit "COPY_RDS_SNAPSHOT_COUNT_ERROR Shared RDS snapshot copying completed with error:\nExpected snapshot count=",
   .arg 1,
   .lit " not equal to actual snapshot count=",
   .arg 2,
   .lit ", exiting"]

/-- The exporter's notification message, built from
`(EXPECTED_SNAPSHOT_COUNT, ready_snapshot_count)`. -/
def src_sns_message (expected actual : Nat) : Option String :=
  pyFormat srcSnsTemplate [toString expected, toString actual]

/-- The importer's notification message, built from
`(EXPECTED_SNAPSHOT_COUNT, ready_snapshot_count)`. -/
def dst_sns_message (expected actual : Nat) : Option String :=
  pyFormat dstSnsTemplate [toString expected, toString actual]

/-- Outcome of the end-of-run validator: exit 0, exit 1 after the
notification step (recording what was published, if anything), or an
unhandled exception while building the message. -/
inductive Outcome where
  | success
  | failure : Option String → Outcome
  | crashed
  deriving Repr, DecidableEq

/-- Exit status of the process for each outcome (an unhandled Python
exception terminates the interpreter with status 1). -/
def exitCodeOf : Outcome → Nat
  | .success => 0
  | .failure _ => 1
  | .crashed => 1

/-- The end-of-run validator / notifier shared by both scripts, parameterised
by the script's message builder: compare the ready count with the expected
count; on mismatch build the message (raising = `.crashed` if the builder
fails), publish it unless debug mode is on or no topic is configured, and
exit non-zero; on equality exit zero. -/
def runValidator (fmt : Nat → Nat → Option String) (expected actual : Nat)
    (debug : Bool) (topicArn : String) : Outcome :=
  if actual ≠ expected then
    match fmt expected actual with
    | none => .crashed
    | some m => .failure (if ¬debug ∧ topicArn ≠ "" then some m else none)
  else .success

/-- Substring test on character lists (Python's `needle in hay`). -/
def listContains (needle : List Char) : List Char → Bool
  | [] => needle.isPrefixOf []
  | c :: rest => needle.isPrefixOf (c :: rest) || listContains needle rest

/-- Substring test on strings, via the underlying character lists. -/
def strContains (needle hay : String) : Bool :=
  listContains needle.data hay.data

/-! ## Latest-automatic snapshot finder

`get_latest_automatic_rds_snapshots` (exporter, lines 148-169) scans the
`automated` snapshot listing of one instance.  `latest` starts as the empty
list `[]` (modelled `none`); the first record always becomes the candidate;
a record with a missing creation time (or a candidate with one) skips the
comparison; otherwise a strictly greater creation time replaces the
candidate. -/

/-- Loop body of `get_latest_automatic_rds_snapshots`. -/
def getLatestGo : Option Snapshot → List Snapshot → Option Snapshot
  | latest, [] => latest
  | latest, snap :: rest =>
    let l := latest.getD snap
    if snap.snapshotCreateTime.isNone || l.snapshotCreateTime.isNone then
      getLatestGo (some l) rest
    else if tsOf l < tsOf snap then
      getLatestGo (some snap) rest
    else
      getLatestGo (some l) rest

/-- The Latest-automatic finder over the listed automated snapshots of one
instance; `none` models the empty-list "no snapshot found" return. -/
def get_latest_automatic_rds_snapshots (snaps : List Snapshot) : Option Snapshot :=
  getLatestGo none snaps

/-- Specification-side description: the first snapshot in scan order whose
timestamp is greater than or equal to every timestamp in the list. -/
def firstMax (g : List Snapshot) : Option Snapshot :=
  g.find? (fun s => g.all (fun t => decide (tsOf t ≤ tsOf s)))

/-- The per-instance step of the exporter's main loop, restricted to the
ready-count bookkeeping: an instance whose finder result is empty is skipped
without incrementing the count (lines 62-70). -/
def exporterCountStep (autoSnaps : List Snapshot) (count : Nat) : Nat :=
  match get_latest_automatic_rds_snapshots autoSnaps with
  | none => count
  | some _ => count + 1

/-! ## Oldest-manual-matching snapshot finder

`get_oldest_manual_recrypted_rds_snapshots` (exporter lines 172-191; the
importer's copy at lines 132-151 is textually identical) scans the `manual`
snapshot listing of an instance, skipping identifiers that do not contain
the substring `"recrypted"`.  The sentinel `oldest = 0` is modelled `none`.
The creation-time comparison reads `SnapshotCreateTime` unconditionally, so
a matching record without it raises `KeyError`, and an empty match set
raises `TypeError` at the final print — both modelled as a `none` result. -/

/-- `"recrypted" in snapshot['DBSnapshotIdentifier']`. -/
def isRecrypted (s : Snapshot) : Bool :=
  strContains "recrypted" s.dbSnapshotIdentifier

/-- Loop body of `get_oldest_manual_recrypted_rds_snapshots`; non-matching
records are skipped (`continue`), the first match seeds the candidate, and a
strictly smaller creation time replaces it. -/
def getOldestGo : Option Snapshot → List Snapshot → Option Snapshot
  | oldest, [] => oldest
  | oldest, snap :: rest =>
    if isRecrypted snap then
      let o := oldest.getD snap
      match snap.snapshotCreateTime, o.snapshotCreateTime with
      | some t1, some t2 => getOldestGo (some (if t1 < t2 then snap else o)) rest
      | _, _ => none
    else
      getOldestGo oldest rest

/-- The Oldest-manual-matching finder; `none` models the unhandled-exception
paths (no matching snapshot, or a matching snapshot without a timestamp). -/
def get_oldest_manual_recrypted_rds_snapshots (snaps : List Snapshot) : Option Snapshot :=
  getOldestGo none snaps

/-- Specification-side description: the first element in scan order whose
timestamp is less than or equal to every timestamp in the list. -/
def firstMin (g : List Snapshot) : Option Snapshot :=
  g.find? (fun s => g.all (fun t => decide (tsOf s ≤ tsOf t)))

/-- Specification-side description of the Oldest finder: the first matching
snapshot in scan order whose timestamp is minimal among the matches. -/
def firstMinMatching (snaps : List Snapshot) : Option Snapshot :=
  firstMin (snaps.filter (fun s => isRecrypted s))

/-! ## Retention pruning

Both scripts end each instance's processing with a `while count > 2` loop
that deletes the oldest "recrypted"-matching manual snapshot (exporter lines
72-76, importer lines 66-71).  The exporter counts with
`get_manual_recrypted_rds_snapshots_count` ("recrypted" substring, lines
194-209); the importer counts with `get_owned_rds_snapshots_count`
("recrypted-copy" substring, lines 154-170).  Both delete via the same
Oldest finder, which matches the bare "recrypted" substring. -/

/-- `"recrypted-copy" in snapshot['DBSnapshotIdentifier']`. -/
def isRecryptedCopy (s : Snapshot) : Bool :=
  strContains "recrypted-copy" s.dbSnapshotIdentifier

/-- `get_manual_recrypted_rds_snapshots_count` (exporter lines 194-209):
manual snapshots of the instance whose identifier contains "recrypted". -/
def get_manual_recrypted_rds_snapshots_count (snaps : List Snapshot) : Nat :=
  snaps.countP (fun s => isRecrypted s)

/-- `get_owned_rds_snapshots_count` (importer lines 154-170): manual
snapshots of the instance whose identifier contains "recrypted-copy". -/
def get_owned_rds_snapshots_count (snaps : List Snapshot) : Nat :=
  snaps.countP (fun s => isRecryptedCopy s)

/-- `delete_db_snapshot`: removes the record carrying the given identifier
from the instance's manual-snapshot listing. -/
def deleteById (i : String) (snaps : List Snapshot) : List Snapshot :=
  snaps.filter (fun s => s.dbSnapshotIdentifier ≠ i)

/-- The pruning loop shared by both scripts, parameterised by the script's
count function: while the count exceeds 2, find the oldest
"recrypted"-matching snapshot and delete it.  Returns the remaining listing
together with the deleted records in deletion order; `none` models a crash
of the finder, or fuel exhaustion (unreachable when the fuel is the length
of the listing, as proved below). -/
def pruneLoop (countFn : List Snapshot → Nat) : Nat → List Snapshot →
    Option (List Snapshot × List Snapshot)
  | 0, snaps => if countFn snaps > 2 then none else some (snaps, [])
  | fuel + 1, snaps =>
    if countFn snaps > 2 then
      match get_oldest_manual_recrypted_rds_snapshots snaps with
      | none => none
      | some victim =>
        (pruneLoop countFn fuel (deleteById victim.dbSnapshotIdentifier snaps)).map
          (fun p => (p.1, victim :: p.2))
    else
      some (snaps, [])

/-- The exporter's pruning of one instance's manual snapshots. -/
def exporterPrune (snaps : List Snapshot) : Option (List Snapshot × List Snapshot) :=
  pruneLoop get_manual_recrypted_rds_snapshots_count snaps.length snaps

/-- The importer's pruning of one instance's manual snapshots. -/
def importerPrune (snaps : List Snapshot) : Option (List Snapshot × List Snapshot) :=
  pruneLoop get_owned_rds_snapshots_count snaps.length snaps

/-! ## The shared-snapshot ARN pattern

Both the importer's filter (`re.search`) and its identifier derivation
(`re.sub`) use the regex `arn:aws:rds:(.+):\d{12}:snapshot:`.  The matcher
below implements exactly this pattern over character lists: a literal
prefix, one or more non-newline characters matched greedily, a colon,
twelve digits, and the literal `:snapshot:`. -/

/-- The literal head of the pattern. -/
def litArn : List Char := "arn:aws:rds:".data

/-- The literal `:snapshot:` tail of the pattern. -/
def litSnapColon : List Char := ":snapshot:".data

/-- Does `l` start with colon, twelve digits, and `:snapshot:` — the part of
the pattern after the greedy group? -/
def checkTail (l : List Char) : Bool :=
  match l with
  | [] => false
  | c :: rest =>
    (c == ':') && decide ((rest.take 12).length = 12)
      && (rest.take 12).all (fun c => c.isDigit)
      && litSnapColon.isPrefixOf (rest.drop 12)

/-- Is `j` a valid length for the greedy group `(.+)` inside `r` (the input
after the literal head)? -/
def validSplit (r : List Char) (j : Nat) : Bool :=
  decide (1 ≤ j) && (r.take j).all (fun c => decide (c ≠ '\n')) && checkTail (r.drop j)

/-- The greedy group: the largest valid split, scanned from the top. -/
def tryTail (r : List Char) : Option Nat :=
  (List.range (r.length + 1)).reverse.find? (fun j => validSplit r j)

/-- Length of the regex match starting at the head of `s`, if any
(12 literal + j group + 1 colon + 12 digits + 10 literal = j + 35). -/
def matchAtStart (s : List Char) : Option Nat :=
  if litArn.isPrefixOf s then (tryTail (s.drop 12)).map (fun j => j + 35)
  else none

/-- `re.search(shared_snapshot_regex, s)`: the pattern matches somewhere. -/
def searchArn (s : List Char) : Bool :=
  (List.range (s.length + 1)).any (fun i => (matchAtStart (s.drop i)).isSome)

/-- Scanning loop of `re.sub(shared_snapshot_regex, "", s)`: each leftmost
match is removed (empty replacement), scanning resumes after it. -/
def subArnGo : Nat → List Char → List Char
  | 0, _ => []
  | _ + 1, [] => []
  | fuel + 1, c :: rest =>
    match matchAtStart (c :: rest) with
    | some L => subArnGo fuel ((c :: rest).drop L)
    | none => c :: subArnGo fuel rest

/-- `re.sub(shared_snapshot_regex, "", s)`. -/
def subArn (s : String) : String :=
  String.mk (subArnGo s.data.length s.data)

/-! ## Recryptor / Local-copy maker

`recrypt_snapshot_with_new_key` (exporter lines 120-145) and
`copy_shared_snapshot_to_local` (importer lines 103-129) both request a
snapshot copy under a derived target identifier and fall back to looking up
the existing record when the service reports it already exists.  The remote
snapshot catalog is modelled as a list of records; a copy request appends a
fresh record unless the target identifier is taken. -/

/-- Python `str.split(':')` on a character list. -/
def splitOnColon : List Char → List (List Char)
  | [] => [[]]
  | c :: rest =>
    if c == ':' then [] :: splitOnColon rest
    else (c :: (splitOnColon rest).headD []) :: (splitOnColon rest).tail

/-- Source-side target-identifier derivation (exporter lines 122-125):
`split(':')[1]` suffixed "-recrypted" when the identifier contains a colon,
otherwise the whole identifier suffixed. -/
def deriveRecryptId (ident : String) : String :=
  if ident.data.contains ':' then
    String.mk ((splitOnColon ident.data).getD 1 []) ++ "-recrypted"
  else
    ident ++ "-recrypted"

/-- Destination-side target-identifier derivation (importer lines 107-108):
every occurrence of the shared-snapshot ARN pattern removed, then the
suffix "-copy". -/
def deriveCopyId (ident : String) : String :=
  subArn ident ++ "-copy"

/-- Specification-side description of "the segment after the first colon":
the characters between the first colon and the next colon (or the end). -/
def segmentAfterFirstColon (l : List Char) : List Char :=
  ((l.dropWhile (fun c => c != ':')).drop 1).takeWhile (fun c => c != ':')

/-- Specification-side shape of a shared-snapshot ARN:
`arn:aws:rds:<region>:<account>:snapshot:<name>`. -/
def arnOf (region acct name : List Char) : List Char :=
  litArn ++ (region ++ (':' :: (acct ++ (litSnapColon ++ name))))

/-- `copy_db_snapshot`: `DBSnapshotAlreadyExistsFault` when the target
identifier is taken, otherwise a fresh record is appended and returned. -/
def copy_db_snapshot (catalog : List Snapshot) (targetId instId : String) :
    Except Unit (List Snapshot × Snapshot) :=
  if catalog.any (fun s => s.dbSnapshotIdentifier == targetId) then .error ()
  else
    let snap : Snapshot := ⟨targetId, "", instId, none⟩
    .ok (catalog ++ [snap], snap)

/-- `describe_db_snapshots(DBSnapshotIdentifier=...)`. -/
def describeById (catalog : List Snapshot) (targetId : String) : List Snapshot :=
  catalog.filter (fun s => s.dbSnapshotIdentifier == targetId)

/-- The shared try/except shape of both copy makers: attempt the copy; on
the already-exists fault, return the first described existing record (the
Boolean records whether the fallback path was taken); `none` models the
unhandled `IndexError` were the fallback lookup to come back empty. -/
def copyWithFallback (catalog : List Snapshot) (targetId instId : String) :
    Option (List Snapshot × Snapshot × Bool) :=
  match copy_db_snapshot catalog targetId instId with
  | .ok (cat, snap) => some (cat, snap, false)
  | .error _ =>
    match describeById catalog targetId with
    | [] => none
    | s :: _ => some (catalog, s, true)

/-- `recrypt_snapshot_with_new_key` (exporter lines 120-145), modelled over
the snapshot catalog (the KMS key does not influence control flow). -/
def recrypt_snapshot_with_new_key (catalog : List Snapshot) (snap : Snapshot) :
    Option (List Snapshot × Snapshot × Bool) :=
  copyWithFallback catalog (deriveRecryptId snap.dbSnapshotIdentifier)
    snap.dbInstanceIdentifier

/-- `copy_shared_snapshot_to_local` (importer lines 103-129). -/
def copy_shared_snapshot_to_local (catalog : List Snapshot) (snap : Snapshot) :
    Option (List Snapshot × Snapshot × Bool) :=
  copyWithFallback catalog (deriveCopyId snap.dbSnapshotIdentifier)
    snap.dbInstanceIdentifier

/-! ## Readiness waiter

`wait_for_snapshot_to_be_ready` (exporter lines 102-117, importer lines
85-100): poll the snapshot's status; break when `available`; print the
percent-complete whenever it changed since the last poll; sleep 10 seconds
between polls.  The remote status history is a function from poll index to
observation; poll `k` happens at time `10 * k`.  The model is fuel-indexed
(`none` = still polling after `fuel` iterations) to express that the real
loop is unbounded. -/

/-- One `describe_db_snapshots` observation: status and percent-complete. -/
structure PollObs where
  status : String
  percentProgress : Int
  deriving Repr, DecidableEq

/-- The polling loop; arguments: fuel, poll index, last printed percent
(initially -1), elapsed time, emitted progress values.  Returns the poll
index, the elapsed time, and the emitted values at the moment `available`
is observed. -/
def wait_for_snapshot_to_be_ready (obs : Nat → PollObs) :
    Nat → Nat → Int → Nat → List Int → Option (Nat × Nat × List Int)
  | 0, _, _, _, _ => none
  | fuel + 1, k, pp, t, log =>
    if (obs k).status = "available" then some (k, t, log)
    else if pp ≠ (obs k).percentProgress then
      wait_for_snapshot_to_be_ready obs fuel (k + 1) (obs k).percentProgress (t + 10)
        (log ++ [(obs k).percentProgress])
    else
      wait_for_snapshot_to_be_ready obs fuel (k + 1) pp (t + 10) log

/-- Specification-side description of the progress output: one value for
each observation differing from the previously observed value. -/
def emittedSpec : Int → List Int → List Int
  | _, [] => []
  | prev, p :: ps => if p ≠ prev then p :: emittedSpec p ps else emittedSpec prev ps

/-! ## The importer's `main`

`main` of dst_acc_copy_shared_rds_snapshot_to_local.py (lines 38-82):
precondition check on the shared listing, copy phase over the shared
snapshots, pruning phase over the instances that received a copy, final
count validation.  External effects are recorded as a trace of actions. -/

/-- The externally visible API actions of the importer run. -/
inductive Act where
  | copySnap : String → String → Act
  | waitSnap : String → Act
  | deleteSnap : String → Act
  | queryManual : String → Act
  deriving Repr, DecidableEq

/-- The importer's shared-snapshot filter (lines 57-59): the identifier
must end in "recrypted" (`re.search("recrypted$", ...)`) and contain the
shared-snapshot ARN pattern. -/
def passesSharedFilter (s : Snapshot) : Bool :=
  "recrypted".data.isSuffixOf s.dbSnapshotIdentifier.data
    && searchArn s.dbSnapshotIdentifier.data

/-- `snapshots_owned[k] = snapshots_owned.get(k, 0) + 1` on an ordered
association list (a Python dict preserves first-insertion key order). -/
def bumpOwned (k : String) : List (String × Nat) → List (String × Nat)
  | [] => [(k, 1)]
  | (k0, n) :: rest =>
    if k0 == k then (k0, n + 1) :: rest
    else (k0, n) :: bumpOwned k rest

/-- The copy phase (lines 56-64): skip snapshots failing the filter; for
the rest copy to the derived local identifier, wait for availability,
increment the ready count, and bump the per-instance owned count. -/
def importerCopyPhase : List Snapshot → Nat → List (String × Nat) → List Act →
    (Nat × List (String × Nat) × List Act)
  | [], cnt, owned, acts => (cnt, owned, acts)
  | s :: rest, cnt, owned, acts =>
    if passesSharedFilter s then
      importerCopyPhase rest (cnt + 1) (bumpOwned s.dbInstanceIdentifier owned)
        (acts ++ [Act.copySnap s.dbSnapshotArn (deriveCopyId s.dbSnapshotIdentifier),
                  Act.waitSnap (deriveCopyId s.dbSnapshotIdentifier)])
    else
      importerCopyPhase rest cnt owned acts

/-- The pruning phase (lines 66-71) over the accumulated instance keys;
`manualOf` gives each instance's manual-snapshot listing at pruning time. -/
def importerPrunePhase (manualOf : String → List Snapshot) :
    List String → Option (List Act)
  | [] => some []
  | db :: rest =>
    match importerPrune (manualOf db) with
    | none => none
    | some p =>
      (importerPrunePhase manualOf rest).map
        (fun acts => (Act.queryManual db ::
          p.2.map (fun d => Act.deleteSnap d.dbSnapshotIdentifier)) ++ acts)

/-- Outcome of an importer run. -/
inductive RunOutcome where
  | success
  | countMismatch : Option String → RunOutcome
  | formatCrash
  | emptyShared
  deriving Repr, DecidableEq

/-- Process exit status per outcome (`sys.exit(1)` on the precondition and
count failures; an unhandled exception also exits 1). -/
def runExitCode : RunOutcome → Nat
  | .success => 0
  | .countMismatch _ => 1
  | .formatCrash => 1
  | .emptyShared => 1

/-- The importer's `main`: `none` models a crash inside the pruning phase. -/
def importerMain (shared : List Snapshot) (manualOf : String → List Snapshot)
    (expected : Nat) (debug : Bool) (topicArn : String) :
    Option (RunOutcome × List Act) :=
  if shared.isEmpty then some (.emptyShared, [])
  else
    match importerPrunePhase manualOf
        ((importerCopyPhase shared 0 [] []).2.1.map (fun p => p.1)) with
    | none => none
    | some acts2 =>
      some
        (if (importerCopyPhase shared 0 [] []).1 ≠ expected then
          match dst_sns_message expected (importerCopyPhase shared 0 [] []).1 with
          | none => RunOutcome.formatCrash
          | some m =>
            RunOutcome.countMismatch (if ¬debug ∧ topicArn ≠ "" then some m else none)
        else RunOutcome.success,
        (importerCopyPhase shared 0 [] []).2.2 ++ acts2)

/-- The instances for which the current run copied at least one shared
snapshot. -/
def copiedInstances (shared : List Snapshot) : List String :=
  (shared.filter (fun s => passesSharedFilter s)).map (fun s => s.dbInstanceIdentifier)

theorem findCongr {α : Type} {p q : α → Bool} :
    ∀ (l : List α), (∀ x ∈ l, p x = q x) → l.find? p = l.find? q := by
  intro l
  induction l with
  | nil => intro _; rfl
  | cons a t ih =>
    intro h
    by_cases hpa : p a = true
    · rw [List.find?_cons_of_pos _ hpa, List.find?_cons_of_pos]
      rw [← h a (List.mem_cons_self a t)]
      exact hpa
    · have hqa : ¬q a = true := by
        rw [← h a (List.mem_cons_self a t)]; exact hpa
      rw [List.find?_cons_of_neg _ hpa, List.find?_cons_of_neg _ hqa]
      exact ih (fun x hx => h x (List.mem_cons_of_mem a hx))

theorem findHeadFalse {α : Type} {P : α → Bool} {a : α} {l : List α}
    (h : P a = false) : List.find? P (a :: l) = List.find? P l := by
  simp [List.find?, h]

theorem findHeadTrue {α : Type} {P : α → Bool} {a : α} {l : List α}
    (h : P a = true) : List.find? P (a :: l) = some a := by
  simp [List.find?, h]

theorem firstMax_drop_head {l s : Snapshot} {rest : List Snapshot}
    (h : tsOf l < tsOf s) :
    firstMax (l :: s :: rest) = firstMax (s :: rest) := by
  unfold firstMax
  refine (findHeadFalse ?_).trans (findCongr _ ?_)
  · simp only [Bool.eq_false_iff, ne_eq, List.all_cons, Bool.and_eq_true,
      decide_eq_true_eq]
    rintro ⟨-, hsl, -⟩
    omega
  · intro x _
    rw [Bool.eq_iff_iff]
    simp only [List.all_cons, Bool.and_eq_true, decide_eq_true_eq]
    constructor
    · rintro ⟨-, h2⟩; exact h2
    · rintro ⟨h1, h2⟩; exact ⟨by omega, h1, h2⟩

theorem firstMax_drop_second {l s : Snapshot} {rest : List Snapshot}
    (h : tsOf s ≤ tsOf l) :
    firstMax (l :: s :: rest) = firstMax (l :: rest) := by
  unfold firstMax
  by_cases hql : ((l :: rest).all fun t => decide (tsOf t ≤ tsOf l)) = true
  · refine (findHeadTrue ?_).trans (findHeadTrue ?_).symm
    · simp only [List.all_cons, Bool.and_eq_true, decide_eq_true_eq] at hql ⊢
      exact ⟨hql.1, h, hql.2⟩
    · exact hql
  · refine ((findHeadFalse ?_).trans ((findHeadFalse ?_).trans
      (findCongr _ ?_))).trans (findHeadFalse ?_).symm
    · simp only [Bool.eq_false_iff, ne_eq, List.all_cons, Bool.and_eq_true,
        decide_eq_true_eq]
      rintro ⟨h1, -, h3⟩
      simp only [List.all_cons, Bool.and_eq_true, decide_eq_true_eq] at hql
      exact hql ⟨h1, h3⟩
    · simp only [Bool.eq_false_iff, ne_eq, List.all_cons, Bool.and_eq_true,
        decide_eq_true_eq]
      rintro ⟨hls, -, hall⟩
      simp only [List.all_cons, Bool.and_eq_true, decide_eq_true_eq] at hql
      refine hql ⟨le_refl _, ?_⟩
      rw [List.all_eq_true] at hall ⊢
      intro t ht
      have := hall t ht
      simp only [decide_eq_true_eq] at this ⊢
      omega
    · intro x _
      rw [Bool.eq_iff_iff]
      simp only [List.all_cons, Bool.and_eq_true, decide_eq_true_eq]
      constructor
      · rintro ⟨h1, -, h3⟩; exact ⟨h1, h3⟩
      · rintro ⟨h1, h2⟩; exact ⟨h1, by omega, h2⟩
    · exact Bool.eq_false_iff.mpr hql

theorem isNone_false_of_isSome {α : Type} {o : Option α} (h : o.isSome) :
    o.isNone = false := by
  cases o
  · simp at h
  · rfl

theorem getLatestGo_eq (rest : List Snapshot) :
    ∀ (l : Snapshot), (∀ s ∈ l :: rest, s.snapshotCreateTime.isSome) →
      getLatestGo (some l) rest = firstMax (l :: rest) := by
  induction rest with
  | nil =>
    intro l _
    simp [getLatestGo, firstMax, List.find?]
  | cons snap rest' ih =>
    intro l h
    have hsnap : snap.snapshotCreateTime.isSome := h snap (by simp)
    have hl : l.snapshotCreateTime.isSome := h l (by simp)
    rw [getLatestGo]
    simp only [Option.getD_some, isNone_false_of_isSome hsnap,
      isNone_false_of_isSome hl, Bool.or_self]
    rw [if_neg (by simp)]
    by_cases hlt : tsOf l < tsOf snap
    · rw [if_pos hlt, ih snap, firstMax_drop_head hlt]
      intro s hs
      rcases List.mem_cons.mp hs with rfl | hs'
      · exact hsnap
      · exact h s (by simp [hs'])
    · rw [if_neg hlt, ih l, firstMax_drop_second (by omega)]
      intro s hs
      rcases List.mem_cons.mp hs with rfl | hs'
      · exact hl
      · exact h s (by simp [hs'])

/-- If the running candidate has no creation timestamp, every comparison is
skipped and the candidate survives to the end of the scan. -/
theorem getLatestGo_none_ts (rest : List Snapshot) :
    ∀ (l : Snapshot), l.snapshotCreateTime = none →
      getLatestGo (some l) rest = some l := by
  induction rest with
  | nil => intro l _; rfl
  | cons snap rest' ih =>
    intro l hnone
    rw [getLatestGo]
    simp only [Option.getD_some, hnone, Option.isNone_none, Bool.or_true]
    simpa using ih l hnone

/-- A candidate with a timestamp is never replaced by one without. -/
theorem getLatestGo_some_ts (rest : List Snapshot) :
    ∀ (l r : Snapshot), l.snapshotCreateTime.isSome →
      getLatestGo (some l) rest = some r → r.snapshotCreateTime.isSome := by
  induction rest with
  | nil =>
    intro l r hl hres
    cases hres
    exact hl
  | cons snap rest' ih =>
    intro l r hl hres
    rw [getLatestGo] at hres
    simp only [Option.getD_some, isNone_false_of_isSome hl, Bool.or_false] at hres
    by_cases hs : snap.snapshotCreateTime.isNone = true
    · rw [if_pos hs] at hres
      exact ih l r hl hres
    · have hsSome : snap.snapshotCreateTime.isSome := by
        cases hO : snap.snapshotCreateTime with
        | none => rw [hO] at hs; simp at hs
        | some v => simp
      rw [if_neg hs] at hres
      by_cases hlt : tsOf l < tsOf snap
      · rw [if_pos hlt] at hres
        exact ih snap r hsSome hres
      · rw [if_neg hlt] at hres
        exact ih l r hl hres

/-- The first scanned snapshot always becomes the running candidate (either
via the empty-candidate initialisation, after which the comparison pits it
against itself). -/
theorem get_latest_cons (a : Snapshot) (t : List Snapshot) :
    get_latest_automatic_rds_snapshots (a :: t) = getLatestGo (some a) t := by
  rw [get_latest_automatic_rds_snapshots, getLatestGo]
  cases hO : a.snapshotCreateTime with
  | none => simp [hO]
  | some v => simp [hO]

/-- Claim C3: over a listing of automated snapshots that all carry a creation
timestamp, the Latest-automatic finder returns the first snapshot in scan
order whose timestamp is maximal (so ties are resolved in favour of the
earlier-scanned snapshot). -/
theorem c3_latest_automatic_finder (snaps : List Snapshot)
    (h : ∀ s ∈ snaps, s.snapshotCreateTime.isSome) :
    get_latest_automatic_rds_snapshots snaps = firstMax snaps := by
  cases snaps with
  | nil => rfl
  | cons a t =>
    rw [get_latest_cons]
    exact getLatestGo_eq t a h

/-- Witness for C3 at the specification's determinism test: three snapshots,
the maximal timestamp shared by positions 1 and 2; position 1 is returned. -/
theorem c3_latest_automatic_finder_witness :
    (∀ s ∈ [Snapshot.mk "pos0" "" "db" (some 1), Snapshot.mk "pos1" "" "db" (some 7),
        Snapshot.mk "pos2" "" "db" (some 7)], s.snapshotCreateTime.isSome) ∧
    get_latest_automatic_rds_snapshots
        [Snapshot.mk "pos0" "" "db" (some 1), Snapshot.mk "pos1" "" "db" (some 7),
         Snapshot.mk "pos2" "" "db" (some 7)] =
      firstMax
        [Snapshot.mk "pos0" "" "db" (some 1), Snapshot.mk "pos1" "" "db" (some 7),
         Snapshot.mk "pos2" "" "db" (some 7)] ∧
    get_latest_automatic_rds_snapshots
        [Snapshot.mk "pos0" "" "db" (some 1), Snapshot.mk "pos1" "" "db" (some 7),
         Snapshot.mk "pos2" "" "db" (some 7)] =
      some (Snapshot.mk "pos1" "" "db" (some 7)) :=
  ⟨by decide,
   c3_latest_automatic_finder _ (by decide),
   by decide⟩

/-- Claim C4 counterexample: with the timestampless snapshot scanned first,
the finder returns it even though a later snapshot qualifies (carries a
timestamp), so a timestampless candidate does not only survive "while no
other snapshot qualifies". -/
theorem c4_counterexample :
    get_latest_automatic_rds_snapshots
        [Snapshot.mk "no-ts" "" "db" none, Snapshot.mk "with-ts" "" "db" (some 5)] =
      some (Snapshot.mk "no-ts" "" "db" none) ∧
    (Snapshot.mk "with-ts" "" "db" (some 5)).snapshotCreateTime.isSome = true := by
  exact ⟨by decide, rfl⟩

/-- Claim C4 (amended): a snapshot with a missing creation timestamp is
skipped in the timestamp comparison and can become the running candidate
only as the first-scanned snapshot — in which case it is returned regardless
of whether later snapshots qualify; an instance with no automated snapshots
yields the empty "no snapshot found" result, which the exporter's main loop
skips without incrementing the processed count. -/
theorem c4_missing_timestamp_and_empty :
    (∀ (s : Snapshot) (rest : List Snapshot), s.snapshotCreateTime = none →
        get_latest_automatic_rds_snapshots (s :: rest) = some s) ∧
    (∀ (a r : Snapshot) (t : List Snapshot),
        get_latest_automatic_rds_snapshots (a :: t) = some r →
        r.snapshotCreateTime = none → r = a) ∧
    get_latest_automatic_rds_snapshots [] = none ∧
    (∀ c : Nat, exporterCountStep [] c = c) := by
  refine ⟨?_, ?_, rfl, fun c => rfl⟩
  · intro s rest hn
    rw [get_latest_cons]
    exact getLatestGo_none_ts rest s hn
  · intro a r t hres hnone
    rw [get_latest_cons] at hres
    by_cases ha : a.snapshotCreateTime.isSome
    · have := getLatestGo_some_ts t a r ha hres
      rw [hnone] at this
      simp at this
    · have haN : a.snapshotCreateTime = none := Option.not_isSome_iff_eq_none.mp ha
      rw [getLatestGo_none_ts t a haN] at hres
      exact (Option.some.inj hres).symm

/-- Witness for the amended C4. -/
theorem c4_missing_timestamp_and_empty_witness :
    get_latest_automatic_rds_snapshots
        [Snapshot.mk "first" "" "db" none, Snapshot.mk "second" "" "db" (some 9)] =
      some (Snapshot.mk "first" "" "db" none) ∧
    exporterCountStep [] 3 = 3 :=
  ⟨c4_missing_timestamp_and_empty.1 (Snapshot.mk "first" "" "db" none)
      [Snapshot.mk "second" "" "db" (some 9)] rfl,
   c4_missing_timestamp_and_empty.2.2.2 3⟩

/-- Skipped records do not affect the scan: the loop behaves as if run on
the matching sublist. -/
theorem getOldestGo_filter (snaps : List Snapshot) :
    ∀ (acc : Option Snapshot),
      getOldestGo acc snaps = getOldestGo acc (snaps.filter (fun s => isRecrypted s)) := by
  induction snaps with
  | nil => intro acc; rfl
  | cons snap rest ih =>
    intro acc
    by_cases hm : isRecrypted snap = true
    · rw [getOldestGo, if_pos hm, List.filter_cons_of_pos (by simpa using hm),
        getOldestGo, if_pos hm]
      cases h1 : snap.snapshotCreateTime with
      | none => rfl
      | some t1 =>
        cases h2 : (acc.getD snap).snapshotCreateTime with
        | none => simp only [h2]
        | some t2 =>
          simp only [h2]
          exact ih _
    · rw [getOldestGo, if_neg hm, List.filter_cons_of_neg (by simpa using hm)]
      exact ih acc

theorem firstMin_drop_head {l s : Snapshot} {rest : List Snapshot}
    (h : tsOf s < tsOf l) :
    firstMin (l :: s :: rest) = firstMin (s :: rest) := by
  unfold firstMin
  refine (findHeadFalse ?_).trans (findCongr _ ?_)
  · simp only [Bool.eq_false_iff, ne_eq, List.all_cons, Bool.and_eq_true,
      decide_eq_true_eq]
    rintro ⟨-, hsl, -⟩
    omega
  · intro x _
    rw [Bool.eq_iff_iff]
    simp only [List.all_cons, Bool.and_eq_true, decide_eq_true_eq]
    constructor
    · rintro ⟨-, h2⟩; exact h2
    · rintro ⟨h1, h2⟩; exact ⟨by omega, h1, h2⟩

theorem firstMin_drop_second {l s : Snapshot} {rest : List Snapshot}
    (h : tsOf l ≤ tsOf s) :
    firstMin (l :: s :: rest) = firstMin (l :: rest) := by
  unfold firstMin
  by_cases hql : ((l :: rest).all fun t => decide (tsOf l ≤ tsOf t)) = true
  · refine (findHeadTrue ?_).trans (findHeadTrue ?_).symm
    · simp only [List.all_cons, Bool.and_eq_true, decide_eq_true_eq] at hql ⊢
      exact ⟨hql.1, h, hql.2⟩
    · exact hql
  · refine ((findHeadFalse ?_).trans ((findHeadFalse ?_).trans
      (findCongr _ ?_))).trans (findHeadFalse ?_).symm
    · simp only [Bool.eq_false_iff, ne_eq, List.all_cons, Bool.and_eq_true,
        decide_eq_true_eq]
      rintro ⟨h1, -, h3⟩
      simp only [List.all_cons, Bool.and_eq_true, decide_eq_true_eq] at hql
      exact hql ⟨h1, h3⟩
    · simp only [Bool.eq_false_iff, ne_eq, List.all_cons, Bool.and_eq_true,
        decide_eq_true_eq]
      rintro ⟨hls, -, hall⟩
      simp only [List.all_cons, Bool.and_eq_true, decide_eq_true_eq] at hql
      refine hql ⟨le_refl _, ?_⟩
      rw [List.all_eq_true] at hall ⊢
      intro t ht
      have := hall t ht
      simp only [decide_eq_true_eq] at this ⊢
      omega
    · intro x _
      rw [Bool.eq_iff_iff]
      simp only [List.all_cons, Bool.and_eq_true, decide_eq_true_eq]
      constructor
      · rintro ⟨h1, -, h3⟩; exact ⟨h1, h3⟩
      · rintro ⟨h1, h2⟩; exact ⟨h1, by omega, h2⟩
    · exact Bool.eq_false_iff.mpr hql

theorem getOldestGo_eq (rest : List Snapshot) :
    ∀ (l : Snapshot), (∀ s ∈ l :: rest, s.snapshotCreateTime.isSome) →
      (∀ s ∈ rest, isRecrypted s = true) →
      getOldestGo (some l) rest = firstMin (l :: rest) := by
  induction rest with
  | nil =>
    intro l _ _
    simp [getOldestGo, firstMin, List.find?]
  | cons snap rest' ih =>
    intro l h hm
    have hsnap : snap.snapshotCreateTime.isSome := h snap (by simp)
    have hl : l.snapshotCreateTime.isSome := h l (by simp)
    obtain ⟨t1, ht1⟩ := Option.isSome_iff_exists.mp hsnap
    obtain ⟨t2, ht2⟩ := Option.isSome_iff_exists.mp hl
    rw [getOldestGo, if_pos (hm snap (by simp))]
    simp only [Option.getD_some, ht1, ht2]
    have htsS : tsOf snap = t1 := by simp [tsOf, ht1]
    have htsL : tsOf l = t2 := by simp [tsOf, ht2]
    by_cases hlt : t1 < t2
    · rw [if_pos hlt, ih snap, firstMin_drop_head (by omega)]
      · intro s hs
        rcases List.mem_cons.mp hs with rfl | hs'
        · exact hsnap
        · exact h s (by simp [hs'])
      · intro s hs
        exact hm s (by simp [hs])
    · rw [if_neg hlt, ih l, firstMin_drop_second (by omega)]
      · intro s hs
        rcases List.mem_cons.mp hs with rfl | hs'
        · exact hl
        · exact h s (by simp [hs'])
      · intro s hs
        exact hm s (by simp [hs])

theorem oldest_finder_spec (snaps : List Snapshot)
    (h : ∀ s ∈ snaps, isRecrypted s = true → s.snapshotCreateTime.isSome) :
    get_oldest_manual_recrypted_rds_snapshots snaps = firstMinMatching snaps := by
  rw [get_oldest_manual_recrypted_rds_snapshots, getOldestGo_filter,
    firstMinMatching]
  have hmem : ∀ s ∈ snaps.filter (fun s => isRecrypted s), s ∈ snaps ∧ isRecrypted s = true :=
    fun s hs => ⟨(List.mem_filter.mp hs).1, (List.mem_filter.mp hs).2⟩
  cases hf : snaps.filter (fun s => isRecrypted s) with
  | nil => rfl
  | cons a t =>
    have hmem' : ∀ s ∈ a :: t, s ∈ snaps ∧ isRecrypted s = true := by
      rw [← hf]; exact hmem
    have hts : ∀ s ∈ a :: t, s.snapshotCreateTime.isSome :=
      fun s hs => h s (hmem' s hs).1 (hmem' s hs).2
    obtain ⟨t1, ht1⟩ := Option.isSome_iff_exists.mp (hts a (by simp))
    rw [getOldestGo, if_pos (hmem' a (by simp)).2]
    simp only [Option.getD_none, ht1]
    rw [if_neg (by omega)]
    exact getOldestGo_eq t a hts (fun s hs => (hmem' s (by simp [hs])).2)

/-- Claim C7: over a manual-snapshot listing whose "recrypted"-matching
records all carry timestamps, the Oldest finder ignores every non-matching
identifier and returns the first matching snapshot in scan order with the
minimal creation timestamp. -/
theorem c7_oldest_matching_finder (snaps : List Snapshot)
    (h : ∀ s ∈ snaps, isRecrypted s = true → s.snapshotCreateTime.isSome) :
    get_oldest_manual_recrypted_rds_snapshots snaps = firstMinMatching snaps :=
  oldest_finder_spec snaps h

/-- Witness for C7 at the specification's test list: `a-recrypted` (t = 2),
`b` (t = 1), `c-recrypted` (t = 3); the non-matching `b` is ignored and
`a-recrypted` is returned. -/
theorem c7_oldest_matching_finder_witness :
    (∀ s ∈ [Snapshot.mk "a-recrypted" "" "db" (some 2), Snapshot.mk "b" "" "db" (some 1),
        Snapshot.mk "c-recrypted" "" "db" (some 3)],
        isRecrypted s = true → s.snapshotCreateTime.isSome) ∧
    get_oldest_manual_recrypted_rds_snapshots
        [Snapshot.mk "a-recrypted" "" "db" (some 2), Snapshot.mk "b" "" "db" (some 1),
         Snapshot.mk "c-recrypted" "" "db" (some 3)] =
      firstMinMatching
        [Snapshot.mk "a-recrypted" "" "db" (some 2), Snapshot.mk "b" "" "db" (some 1),
         Snapshot.mk "c-recrypted" "" "db" (some 3)] ∧
    get_oldest_manual_recrypted_rds_snapshots
        [Snapshot.mk "a-recrypted" "" "db" (some 2), Snapshot.mk "b" "" "db" (some 1),
         Snapshot.mk "c-recrypted" "" "db" (some 3)] =
      some (Snapshot.mk "a-recrypted" "" "db" (some 2)) :=
  ⟨by decide,
   c7_oldest_matching_finder _ (by decide),
   by decide⟩

theorem exists_ts_min (g : List Snapshot) (hne : g ≠ []) :
    ∃ m, m ∈ g ∧ ∀ t ∈ g, tsOf m ≤ tsOf t := by
  induction g with
  | nil => exact absurd rfl hne
  | cons a rest ih =>
    cases rest with
    | nil =>
      refine ⟨a, by simp, ?_⟩
      intro t ht
      rw [List.mem_singleton] at ht
      subst ht
      exact le_refl _
    | cons b u =>
      obtain ⟨m, hm, hmin⟩ := ih (by simp)
      by_cases hc : tsOf a ≤ tsOf m
      · refine ⟨a, by simp, ?_⟩
        intro t ht
        rcases List.mem_cons.mp ht with rfl | ht'
        · exact le_refl _
        · exact hc.trans (hmin t ht')
      · refine ⟨m, by simp [hm], ?_⟩
        intro t ht
        rcases List.mem_cons.mp ht with rfl | ht'
        · omega
        · exact hmin t ht'

theorem firstMin_spec (g : List Snapshot) (hne : g ≠ []) :
    ∃ v, firstMin g = some v ∧ v ∈ g ∧ ∀ t ∈ g, tsOf v ≤ tsOf t := by
  obtain ⟨m, hm, hmin⟩ := exists_ts_min g hne
  have hpred : (fun s => g.all fun t => decide (tsOf s ≤ tsOf t)) m = true := by
    simp only [List.all_eq_true, decide_eq_true_eq]
    exact hmin
  have hsome : (g.find? (fun s => g.all fun t => decide (tsOf s ≤ tsOf t))).isSome := by
    rw [List.find?_isSome]
    exact ⟨m, hm, hpred⟩
  obtain ⟨v, hv⟩ := Option.isSome_iff_exists.mp hsome
  refine ⟨v, hv, List.mem_of_find?_eq_some hv, ?_⟩
  have hp := List.find?_some hv
  simp only [List.all_eq_true, decide_eq_true_eq] at hp
  exact hp

/-- When at least one matching snapshot with a timestamp exists, the Oldest
finder returns a matching member of minimal timestamp. -/
theorem oldest_finder_victim (snaps : List Snapshot)
    (hts : ∀ s ∈ snaps, isRecrypted s = true → s.snapshotCreateTime.isSome)
    (hne : ∃ s ∈ snaps, isRecrypted s = true) :
    ∃ v, get_oldest_manual_recrypted_rds_snapshots snaps = some v ∧ v ∈ snaps ∧
      isRecrypted v = true ∧ ∀ r ∈ snaps, isRecrypted r = true → tsOf v ≤ tsOf r := by
  rw [oldest_finder_spec snaps hts, firstMinMatching]
  have hfne : snaps.filter (fun s => isRecrypted s) ≠ [] := by
    obtain ⟨s, hs, hm⟩ := hne
    intro h0
    have hmemf : s ∈ snaps.filter (fun s => isRecrypted s) :=
      List.mem_filter.mpr ⟨hs, hm⟩
    rw [h0] at hmemf
    simp at hmemf
  obtain ⟨v, hv, hvmem, hvmin⟩ := firstMin_spec _ hfne
  obtain ⟨hvs, hvm⟩ := List.mem_filter.mp hvmem
  refine ⟨v, hv, hvs, hvm, ?_⟩
  intro r hr hrm
  exact hvmin r (List.mem_filter.mpr ⟨hr, hrm⟩)

/-- Under distinct identifiers, deleting a member's identifier is, up to
permutation, removing exactly that member. -/
theorem delete_perm :
    ∀ (snaps : List Snapshot) (v : Snapshot), v ∈ snaps →
      (snaps.map (fun s => s.dbSnapshotIdentifier)).Nodup →
      snaps.Perm (v :: deleteById v.dbSnapshotIdentifier snaps) := by
  intro snaps
  induction snaps with
  | nil =>
    intro v hv
    simp at hv
  | cons a rest ih =>
    intro v hv hnd
    rw [List.map_cons, List.nodup_cons] at hnd
    by_cases hav : a = v
    · subst hav
      have hdel : deleteById a.dbSnapshotIdentifier (a :: rest) = rest := by
        rw [deleteById, List.filter_cons_of_neg (by simp)]
        apply List.filter_eq_self.mpr
        intro s hs
        simp only [ne_eq, decide_eq_true_eq]
        intro heq
        exact hnd.1 (heq ▸ List.mem_map_of_mem _ hs)
      rw [hdel]
    · have hv' : v ∈ rest := by
        rcases List.mem_cons.mp hv with h0 | h0
        · exact absurd h0.symm hav
        · exact h0
      have haid : ¬(a.dbSnapshotIdentifier ≠ v.dbSnapshotIdentifier) = False := by
        simp only [ne_eq, eq_iff_iff, iff_false, not_not]
        intro heq
        exact hnd.1 (heq ▸ List.mem_map_of_mem _ hv')
      have hdel : deleteById v.dbSnapshotIdentifier (a :: rest) =
          a :: deleteById v.dbSnapshotIdentifier rest := by
        rw [deleteById, List.filter_cons_of_pos, deleteById]
        simp only [decide_eq_true_eq, ne_eq]
        intro heq
        exact hnd.1 (heq ▸ List.mem_map_of_mem _ hv')
      rw [hdel]
      exact ((ih v hv' hnd.2).cons a).trans (List.Perm.swap v a _)

/-- Main correctness lemma for the pruning loop, generic in the count rule
(the delete rule is always the "recrypted" marker of the Oldest finder).
Hypotheses: the count rule implies the delete rule; identifiers are
distinct; matching records carry timestamps, pairwise distinct among
matching records. -/
theorem pruneLoop_spec (countRule : Snapshot → Bool)
    (himp : ∀ s, countRule s = true → isRecrypted s = true) :
    ∀ (fuel : Nat) (snaps : List Snapshot), snaps.length ≤ fuel →
      (snaps.map (fun s => s.dbSnapshotIdentifier)).Nodup →
      (∀ s ∈ snaps, isRecrypted s = true → s.snapshotCreateTime.isSome) →
      (∀ a ∈ snaps, ∀ b ∈ snaps, isRecrypted a = true → isRecrypted b = true →
        tsOf a = tsOf b → a = b) →
      ∃ rem del,
        pruneLoop (fun l => l.countP countRule) fuel snaps = some (rem, del) ∧
        rem.countP countRule = min (snaps.countP countRule) 2 ∧
        (∀ d ∈ del, isRecrypted d = true ∧ d ∈ snaps) ∧
        del.countP countRule = snaps.countP countRule - 2 ∧
        (∀ r ∈ rem, r ∈ snaps) ∧
        (∀ d ∈ del, ∀ r ∈ rem, isRecrypted r = true → tsOf d < tsOf r) := by
  intro fuel
  induction fuel with
  | zero =>
    intro snaps hlen hnd hts hinj
    have h0 : snaps = [] := List.length_eq_zero.mp (Nat.le_zero.mp hlen)
    subst h0
    refine ⟨[], [], ?_, by simp, by simp, by simp, by simp, by simp⟩
    rw [pruneLoop]
    simp
  | succ fuel ih =>
    intro snaps hlen hnd hts hinj
    by_cases hgt : snaps.countP countRule > 2
    · have hne : ∃ s ∈ snaps, isRecrypted s = true := by
        have hpos : 0 < snaps.countP countRule := by omega
        obtain ⟨s, hs, hcs⟩ := List.countP_pos_iff.mp hpos
        exact ⟨s, hs, himp s hcs⟩
      obtain ⟨v, hv, hvmem, hvmatch, hvmin⟩ := oldest_finder_victim snaps hts hne
      have hperm := delete_perm snaps v hvmem hnd
      have hsub : ∀ x ∈ deleteById v.dbSnapshotIdentifier snaps, x ∈ snaps :=
        fun x hx => (List.mem_filter.mp hx).1
      have hlen' : (deleteById v.dbSnapshotIdentifier snaps).length ≤ fuel := by
        have hl := hperm.length_eq
        simp only [List.length_cons] at hl
        omega
      have hsubl : (deleteById v.dbSnapshotIdentifier snaps).Sublist snaps :=
        List.filter_sublist snaps
      have hnd' : ((deleteById v.dbSnapshotIdentifier snaps).map
          (fun s => s.dbSnapshotIdentifier)).Nodup :=
        hnd.sublist (hsubl.map _)
      obtain ⟨rem, del, heq, hc1, hc2, hc3, hc4, hc5⟩ :=
        ih (deleteById v.dbSnapshotIdentifier snaps) hlen' hnd'
          (fun s hs => hts s (hsub s hs))
          (fun a ha b hb => hinj a (hsub a ha) b (hsub b hb))
      have hcnt : snaps.countP countRule =
          (deleteById v.dbSnapshotIdentifier snaps).countP countRule +
            (if countRule v then 1 else 0) := by
        rw [hperm.countP_eq countRule, List.countP_cons]
      refine ⟨rem, v :: del, ?_, ?_, ?_, ?_, ?_, ?_⟩
      · rw [pruneLoop, if_pos hgt, hv]
        simp only [heq]
        rfl
      · rw [hc1]
        by_cases hcv : countRule v = true
        · rw [if_pos hcv] at hcnt
          omega
        · rw [if_neg hcv] at hcnt
          omega
      · intro d hd
        rcases List.mem_cons.mp hd with rfl | hd'
        · exact ⟨hvmatch, hvmem⟩
        · obtain ⟨hm0, hmem0⟩ := hc2 d hd'
          exact ⟨hm0, hsub d hmem0⟩
      · rw [List.countP_cons]
        by_cases hcv : countRule v = true
        · rw [if_pos hcv] at hcnt ⊢
          omega
        · rw [if_neg hcv] at hcnt ⊢
          omega
      · exact fun r hr => hsub r (hc4 r hr)
      · intro d hd r hr hrm
        rcases List.mem_cons.mp hd with rfl | hd'
        · have hrs' : r ∈ deleteById d.dbSnapshotIdentifier snaps := hc4 r hr
          have hrsn : r ∈ snaps := hsub r hrs'
          have hrne : r ≠ d := by
            have hne0 := (List.mem_filter.mp hrs').2
            simp only [ne_eq, decide_eq_true_eq] at hne0
            intro h0
            rw [h0] at hne0
            exact hne0 rfl
          have hle := hvmin r hrsn hrm
          have hneq : tsOf d ≠ tsOf r := by
            intro h0
            exact hrne (hinj r hrsn d hvmem hrm hvmatch h0.symm)
          omega
        · exact hc5 d hd' r hr hrm
    · refine ⟨snaps, [], ?_, by omega, by simp, by simp; omega,
        fun r hr => hr, by simp⟩
      rw [pruneLoop, if_neg hgt]

theorem listContains_of_prefix :
    ∀ {n1 n2 : List Char} (hay : List Char), n1.isPrefixOf n2 = true →
      listContains n2 hay = true → listContains n1 hay = true := by
  intro n1 n2 hay
  induction hay with
  | nil =>
    intro hp h
    rw [listContains] at h ⊢
    rw [List.isPrefixOf_iff_prefix] at hp h ⊢
    have h2 : n2 = [] := List.prefix_nil.mp h
    subst h2
    exact hp
  | cons c rest ih =>
    intro hp h
    rw [listContains, Bool.or_eq_true] at h ⊢
    rcases h with h | h
    · left
      rw [List.isPrefixOf_iff_prefix] at hp h ⊢
      exact hp.trans h
    · right
      exact ih hp h

/-- A "recrypted-copy" match is in particular a "recrypted" match: the
importer's count rule implies the shared delete rule. -/
theorem isRecrypted_of_isRecryptedCopy (s : Snapshot)
    (h : isRecryptedCopy s = true) : isRecrypted s = true := by
  rw [isRecryptedCopy, strContains] at h
  rw [isRecrypted, strContains]
  exact listContains_of_prefix _ (by decide) h

/-- Claim C2 counterexample, on the importer side: the instance has N = 3
manual snapshots matching the count rule ("recrypted-copy"), plus one older
manual snapshot matching only the delete rule ("recrypted").  The loop
deletes that snapshot — which does not match the rule it counts — together
with the oldest count-matching one, so the deleted set is not contained in
the N - 2 = 1 oldest count-matching snapshots. -/
theorem c2_counterexample :
    importerPrune
        [Snapshot.mk "old-recrypted" "" "db" (some 1),
         Snapshot.mk "a-recrypted-copy" "" "db" (some 2),
         Snapshot.mk "b-recrypted-copy" "" "db" (some 3),
         Snapshot.mk "c-recrypted-copy" "" "db" (some 4)] =
      some ([Snapshot.mk "b-recrypted-copy" "" "db" (some 3),
             Snapshot.mk "c-recrypted-copy" "" "db" (some 4)],
            [Snapshot.mk "old-recrypted" "" "db" (some 1),
             Snapshot.mk "a-recrypted-copy" "" "db" (some 2)]) ∧
    isRecryptedCopy (Snapshot.mk "old-recrypted" "" "db" (some 1)) = false ∧
    get_owned_rds_snapshots_count
        [Snapshot.mk "old-recrypted" "" "db" (some 1),
         Snapshot.mk "a-recrypted-copy" "" "db" (some 2),
         Snapshot.mk "b-recrypted-copy" "" "db" (some 3),
         Snapshot.mk "c-recrypted-copy" "" "db" (some 4)] = 3 := by
  refine ⟨by decide, by decide, by decide⟩

/-- Claim C2 (amended).  Source side: count rule and delete rule coincide
("recrypted" substring), and the claim holds as stated — exactly
min(N, 2) matching snapshots remain, N - 2 matching snapshots are deleted,
each strictly older than every remaining matching snapshot.  Destination
side: the loop counts by "recrypted-copy" but deletes by "recrypted", so
every deleted snapshot matches the delete rule (not necessarily the count
rule); still, exactly min(N, 2) count-matching snapshots remain and exactly
N - 2 count-matching snapshots are deleted, each strictly older than every
remaining "recrypted"-matching snapshot.  Hypotheses: distinct identifiers,
matching snapshots carry pairwise-distinct timestamps. -/
theorem c2_pruning_amended :
    (∀ (snaps rem del : List Snapshot),
        (snaps.map (fun s => s.dbSnapshotIdentifier)).Nodup →
        (∀ s ∈ snaps, isRecrypted s = true → s.snapshotCreateTime.isSome) →
        (∀ a ∈ snaps, ∀ b ∈ snaps, isRecrypted a = true → isRecrypted b = true →
          tsOf a = tsOf b → a = b) →
        exporterPrune snaps = some (rem, del) →
          rem.countP (fun s => isRecrypted s) =
            min (snaps.countP (fun s => isRecrypted s)) 2 ∧
          (∀ d ∈ del, isRecrypted d = true ∧ d ∈ snaps) ∧
          del.countP (fun s => isRecrypted s) =
            snaps.countP (fun s => isRecrypted s) - 2 ∧
          (∀ d ∈ del, ∀ r ∈ rem, isRecrypted r = true → tsOf d < tsOf r)) ∧
    (∀ snaps : List Snapshot,
        (snaps.map (fun s => s.dbSnapshotIdentifier)).Nodup →
        (∀ s ∈ snaps, isRecrypted s = true → s.snapshotCreateTime.isSome) →
        (∀ a ∈ snaps, ∀ b ∈ snaps, isRecrypted a = true → isRecrypted b = true →
          tsOf a = tsOf b → a = b) →
        (exporterPrune snaps).isSome = true) ∧
    (∀ (snaps rem del : List Snapshot),
        (snaps.map (fun s => s.dbSnapshotIdentifier)).Nodup →
        (∀ s ∈ snaps, isRecrypted s = true → s.snapshotCreateTime.isSome) →
        (∀ a ∈ snaps, ∀ b ∈ snaps, isRecrypted a = true → isRecrypted b = true →
          tsOf a = tsOf b → a = b) →
        importerPrune snaps = some (rem, del) →
          rem.countP (fun s => isRecryptedCopy s) =
            min (snaps.countP (fun s => isRecryptedCopy s)) 2 ∧
          (∀ d ∈ del, isRecrypted d = true ∧ d ∈ snaps) ∧
          del.countP (fun s => isRecryptedCopy s) =
            snaps.countP (fun s => isRecryptedCopy s) - 2 ∧
          (∀ d ∈ del, ∀ r ∈ rem, isRecrypted r = true → tsOf d < tsOf r)) ∧
    (∀ snaps : List Snapshot,
        (snaps.map (fun s => s.dbSnapshotIdentifier)).Nodup →
        (∀ s ∈ snaps, isRecrypted s = true → s.snapshotCreateTime.isSome) →
        (∀ a ∈ snaps, ∀ b ∈ snaps, isRecrypted a = true → isRecrypted b = true →
          tsOf a = tsOf b → a = b) →
        (importerPrune snaps).isSome = true) := by
  refine ⟨?_, ?_, ?_, ?_⟩
  · intro snaps rem del hnd hts hinj heq
    obtain ⟨rem', del', heq', p1, p2, p3, p4, p5⟩ :=
      pruneLoop_spec (fun s => isRecrypted s) (fun s h => h) snaps.length snaps
        (le_refl _) hnd hts hinj
    have hsame : rem' = rem ∧ del' = del := by
      have h0 : some (rem', del') = some (rem, del) := heq'.symm.trans heq
      simp only [Option.some.injEq, Prod.mk.injEq] at h0
      exact h0
    obtain ⟨rfl, rfl⟩ := hsame
    exact ⟨p1, p2, p3, p5⟩
  · intro snaps hnd hts hinj
    obtain ⟨rem', del', heq', -⟩ :=
      pruneLoop_spec (fun s => isRecrypted s) (fun s h => h) snaps.length snaps
        (le_refl _) hnd hts hinj
    have heqE : exporterPrune snaps = some (rem', del') := heq'
    rw [heqE]
    rfl
  · intro snaps rem del hnd hts hinj heq
    obtain ⟨rem', del', heq', p1, p2, p3, p4, p5⟩ :=
      pruneLoop_spec (fun s => isRecryptedCopy s) isRecrypted_of_isRecryptedCopy
        snaps.length snaps (le_refl _) hnd hts hinj
    have hsame : rem' = rem ∧ del' = del := by
      have h0 : some (rem', del') = some (rem, del) := heq'.symm.trans heq
      simp only [Option.some.injEq, Prod.mk.injEq] at h0
      exact h0
    obtain ⟨rfl, rfl⟩ := hsame
    exact ⟨p1, p2, p3, p5⟩
  · intro snaps hnd hts hinj
    obtain ⟨rem', del', heq', -⟩ :=
      pruneLoop_spec (fun s => isRecryptedCopy s) isRecrypted_of_isRecryptedCopy
        snaps.length snaps (le_refl _) hnd hts hinj
    have heqI : importerPrune snaps = some (rem', del') := heq'
    rw [heqI]
    rfl

/-- Witness for the amended C2, applying the source-side part at a listing
of three matching snapshots (one deletion) and the destination-side part at
a listing of three local copies. -/
theorem c2_pruning_amended_witness :
    [Snapshot.mk "y-recrypted" "" "db" (some 2),
     Snapshot.mk "z-recrypted" "" "db" (some 3)].countP (fun s => isRecrypted s) =
      min ([Snapshot.mk "x-recrypted" "" "db" (some 1),
            Snapshot.mk "y-recrypted" "" "db" (some 2),
            Snapshot.mk "z-recrypted" "" "db" (some 3)].countP
              (fun s => isRecrypted s)) 2 ∧
    (importerPrune
        [Snapshot.mk "p-recrypted-copy" "" "db" (some 4),
         Snapshot.mk "q-recrypted-copy" "" "db" (some 5),
         Snapshot.mk "r-recrypted-copy" "" "db" (some 6)]).isSome = true :=
  ⟨(c2_pruning_amended.1
      [Snapshot.mk "x-recrypted" "" "db" (some 1),
       Snapshot.mk "y-recrypted" "" "db" (some 2),
       Snapshot.mk "z-recrypted" "" "db" (some 3)]
      [Snapshot.mk "y-recrypted" "" "db" (some 2),
       Snapshot.mk "z-recrypted" "" "db" (some 3)]
      [Snapshot.mk "x-recrypted" "" "db" (some 1)]
      (by decide) (by decide) (by decide) (by decide)).1,
   c2_pruning_amended.2.2.2
      [Snapshot.mk "p-recrypted-copy" "" "db" (some 4),
       Snapshot.mk "q-recrypted-copy" "" "db" (some 5),
       Snapshot.mk "r-recrypted-copy" "" "db" (some 6)]
      (by decide) (by decide) (by decide)⟩

/-- Claim C1, evaluated at the failing input (expected 4, ready 3, debug
off, topic configured).  Source side: the validator behaves as claimed —
mismatch builds the tagged message carrying both counts, publishes it, and
exits 1, while equality exits 0, and debug mode or an empty topic suppress
the publish.  Destination side: building the message raises `IndexError`
(the template's replacement indices are 1 and 2 but only two arguments are
supplied), so the process crashes before publishing anything — it still
terminates non-zero, but no message is constructed or published. -/
theorem c1_notifier_dst_format_crash :
    runValidator src_sns_message 4 3 false "arn:topic" =
      Outcome.failure (some "COPY_RDS_SNAPSHOT_COUNT_ERROR sharing RDS snapshots completed with error: Expected snapshot count=4 not equal to actual snapshot count=3, exiting") ∧
    strContains "COPY_RDS_SNAPSHOT_COUNT_ERROR"
      "COPY_RDS_SNAPSHOT_COUNT_ERROR sharing RDS snapshots completed with error: Expected snapshot count=4 not equal to actual snapshot count=3, exiting" = true ∧
    strContains "4"
      "COPY_RDS_SNAPSHOT_COUNT_ERROR sharing RDS snapshots completed with error: Expected snapshot count=4 not equal to actual snapshot count=3, exiting" = true ∧
    strContains "3"
      "COPY_RDS_SNAPSHOT_COUNT_ERROR sharing RDS snapshots completed with error: Expected snapshot count=4 not equal to actual snapshot count=3, exiting" = true ∧
    runValidator src_sns_message 4 3 true "arn:topic" = Outcome.failure none ∧
    runValidator src_sns_message 4 3 false "" = Outcome.failure none ∧
    runValidator src_sns_message 4 4 false "arn:topic" = Outcome.success ∧
    exitCodeOf (Outcome.failure (some "COPY_RDS_SNAPSHOT_COUNT_ERROR sharing RDS snapshots completed with error: Expected snapshot count=4 not equal to actual snapshot count=3, exiting")) = 1 ∧
    exitCodeOf Outcome.success = 0 ∧
    dst_sns_message 4 3 = none ∧
    runValidator dst_sns_message 4 3 false "arn:topic" = Outcome.crashed ∧
    exitCodeOf Outcome.crashed = 1 := by
  refine ⟨by decide, by decide, by decide, by decide, by decide, by decide,
    by decide, rfl, rfl, by decide, by decide, rfl⟩

theorem mem_describeById_id (catalog : List Snapshot) (t : String) :
    ∀ x ∈ describeById catalog t, x.dbSnapshotIdentifier = t := by
  intro x hx
  have hp := (List.mem_filter.mp hx).2
  simpa using hp

theorem describeById_ne_nil (catalog : List Snapshot) (t : String)
    (h : ∃ x ∈ catalog, x.dbSnapshotIdentifier = t) : describeById catalog t ≠ [] := by
  obtain ⟨x, hx, hid⟩ := h
  intro h0
  have hmem : x ∈ describeById catalog t :=
    List.mem_filter.mpr ⟨hx, by simpa using hid⟩
  rw [h0] at hmem
  simp at hmem

/-- Core idempotence fact about the try/except copy shape: the first call
always succeeds and returns a record carrying the target identifier; a
second call on the resulting catalog takes the already-exists fallback and
returns a record with the same identifier, leaving the catalog unchanged. -/
theorem copyWithFallback_idempotent (catalog : List Snapshot) (tgtId instId : String) :
    ∃ cat1 s1 b1, copyWithFallback catalog tgtId instId = some (cat1, s1, b1) ∧
      s1.dbSnapshotIdentifier = tgtId ∧
      ∃ s2, copyWithFallback cat1 tgtId instId = some (cat1, s2, true) ∧
        s2.dbSnapshotIdentifier = s1.dbSnapshotIdentifier := by
  by_cases hex : (catalog.any (fun s => s.dbSnapshotIdentifier == tgtId)) = true
  · -- the target already exists: both calls take the fallback
    have hnn : describeById catalog tgtId ≠ [] := by
      apply describeById_ne_nil
      obtain ⟨x, hx, hb⟩ := List.any_eq_true.mp hex
      exact ⟨x, hx, by simpa using hb⟩
    cases hd : describeById catalog tgtId with
    | nil => exact absurd hd hnn
    | cons s rest =>
      have hs : s.dbSnapshotIdentifier = tgtId :=
        mem_describeById_id catalog tgtId s (hd ▸ List.mem_cons_self s rest)
      refine ⟨catalog, s, true, ?_, hs, s, ?_, rfl⟩
      · rw [copyWithFallback, copy_db_snapshot, if_pos hex, hd]
      · rw [copyWithFallback, copy_db_snapshot, if_pos hex, hd]
  · -- fresh copy, then fallback
    have heq1 : copyWithFallback catalog tgtId instId =
        some (catalog ++ [⟨tgtId, "", instId, none⟩], ⟨tgtId, "", instId, none⟩, false) := by
      rw [copyWithFallback, copy_db_snapshot, if_neg hex]
    have hex2 : ((catalog ++ [(⟨tgtId, "", instId, none⟩ : Snapshot)]).any
        (fun s => s.dbSnapshotIdentifier == tgtId)) = true := by
      rw [List.any_eq_true]
      exact ⟨⟨tgtId, "", instId, none⟩, by simp, by simp⟩
    have hnn : describeById (catalog ++ [(⟨tgtId, "", instId, none⟩ : Snapshot)]) tgtId ≠ [] := by
      apply describeById_ne_nil
      exact ⟨⟨tgtId, "", instId, none⟩, by simp, rfl⟩
    cases hd : describeById (catalog ++ [(⟨tgtId, "", instId, none⟩ : Snapshot)]) tgtId with
    | nil => exact absurd hd hnn
    | cons s rest =>
      have hs : s.dbSnapshotIdentifier = tgtId :=
        mem_describeById_id _ tgtId s (hd ▸ List.mem_cons_self s rest)
      refine ⟨catalog ++ [⟨tgtId, "", instId, none⟩], ⟨tgtId, "", instId, none⟩, false,
        heq1, rfl, s, ?_, hs⟩
      rw [copyWithFallback, copy_db_snapshot, if_pos hex2, hd]

/-- Claim C6: both copy makers are idempotent — a second invocation with
the same source snapshot (hence the same derived target identifier) returns
a record with the same identifier as the first, takes the already-exists
fallback path (the Boolean), surfaces no error (`some`), and leaves the
catalog unchanged. -/
theorem c6_copy_idempotent :
    (∀ (catalog : List Snapshot) (snap : Snapshot),
      ∃ cat1 s1 b1, recrypt_snapshot_with_new_key catalog snap = some (cat1, s1, b1) ∧
        ∃ s2, recrypt_snapshot_with_new_key cat1 snap = some (cat1, s2, true) ∧
          s2.dbSnapshotIdentifier = s1.dbSnapshotIdentifier) ∧
    (∀ (catalog : List Snapshot) (snap : Snapshot),
      ∃ cat1 s1 b1, copy_shared_snapshot_to_local catalog snap = some (cat1, s1, b1) ∧
        ∃ s2, copy_shared_snapshot_to_local cat1 snap = some (cat1, s2, true) ∧
          s2.dbSnapshotIdentifier = s1.dbSnapshotIdentifier) := by
  constructor
  · intro catalog snap
    obtain ⟨cat1, s1, b1, h1, -, s2, h2, hid⟩ :=
      copyWithFallback_idempotent catalog (deriveRecryptId snap.dbSnapshotIdentifier)
        snap.dbInstanceIdentifier
    exact ⟨cat1, s1, b1, h1, s2, h2, hid⟩
  · intro catalog snap
    obtain ⟨cat1, s1, b1, h1, -, s2, h2, hid⟩ :=
      copyWithFallback_idempotent catalog (deriveCopyId snap.dbSnapshotIdentifier)
        snap.dbInstanceIdentifier
    exact ⟨cat1, s1, b1, h1, s2, h2, hid⟩

/-- Invariant of the polling loop: a run that returns entered at the first
`available` poll at or after its starting index, slept 10 time units per
intervening poll, and emitted exactly the percent values differing from the
previously observed one. -/
theorem wait_go (obs : Nat → PollObs) :
    ∀ (fuel k : Nat) (pp : Int) (t : Nat) (log : List Int) (K T : Nat) (L : List Int),
      wait_for_snapshot_to_be_ready obs fuel k pp t log = some (K, T, L) →
      k ≤ K ∧ (obs K).status = "available" ∧
      (∀ j, k ≤ j → j < K → (obs j).status ≠ "available") ∧
      T = t + 10 * (K - k) ∧
      L = log ++ emittedSpec pp ((List.range' k (K - k)).map
            (fun j => (obs j).percentProgress)) := by
  intro fuel
  induction fuel with
  | zero =>
    intro k pp t log K T L h
    rw [wait_for_snapshot_to_be_ready] at h
    cases h
  | succ fuel ih =>
    intro k pp t log K T L h
    rw [wait_for_snapshot_to_be_ready] at h
    by_cases hav : (obs k).status = "available"
    · rw [if_pos hav] at h
      obtain ⟨rfl, rfl, rfl⟩ : k = K ∧ t = T ∧ log = L := by
        simpa using h
      refine ⟨le_refl _, hav, ?_, by omega, ?_⟩
      · intro j h1 h2
        omega
      · simp [emittedSpec]
    · rw [if_neg hav] at h
      by_cases hchg : pp ≠ (obs k).percentProgress
      · rw [if_pos hchg] at h
        obtain ⟨hk, hst, hmid, hT, hL⟩ := ih _ _ _ _ K T L h
        refine ⟨by omega, hst, ?_, by omega, ?_⟩
        · intro j h1 h2
          rcases Nat.eq_or_lt_of_le h1 with rfl | h1'
          · exact hav
          · exact hmid j h1' h2
        · have hKk : K - k = (K - (k + 1)) + 1 := by omega
          rw [hL, hKk, List.range'_succ, List.map_cons, emittedSpec,
            if_pos (Ne.symm hchg)]
          simp [List.append_assoc]
      · rw [if_neg hchg] at h
        obtain ⟨hk, hst, hmid, hT, hL⟩ := ih _ _ _ _ K T L h
        refine ⟨by omega, hst, ?_, by omega, ?_⟩
        · intro j h1 h2
          rcases Nat.eq_or_lt_of_le h1 with rfl | h1'
          · exact hav
          · exact hmid j h1' h2
        · have hpp : pp = (obs k).percentProgress := by
            by_contra h0
            exact hchg h0
          have hKk : K - k = (K - (k + 1)) + 1 := by omega
          rw [hL, hKk, List.range'_succ, List.map_cons, emittedSpec,
            if_neg (by rw [hpp]; exact fun h0 => h0 rfl), hpp]

/-- The loop never returns while no poll reports `available`. -/
theorem wait_never (obs : Nat → PollObs)
    (h : ∀ j, (obs j).status ≠ "available") :
    ∀ (fuel k : Nat) (pp : Int) (t : Nat) (log : List Int),
      wait_for_snapshot_to_be_ready obs fuel k pp t log = none := by
  intro fuel
  induction fuel with
  | zero => intro k pp t log; rfl
  | succ fuel ih =>
    intro k pp t log
    rw [wait_for_snapshot_to_be_ready, if_neg (h k)]
    by_cases hchg : pp ≠ (obs k).percentProgress
    · rw [if_pos hchg]
      exact ih _ _ _ _
    · rw [if_neg hchg]
      exact ih _ _ _ _

/-- Claim C8: a returning run of the Readiness Waiter returns at the first
`available` poll (never while the status differs), having slept a fixed 10
time units between polls (return time = 10 x poll index, unbounded fuel
needed when no poll is ever `available`), and its progress output contains
exactly the percent values that differed from the previously observed value
(the previous value initialised to -1). -/
theorem c8_readiness_waiter (obs : Nat → PollObs) :
    (∀ (fuel K T : Nat) (L : List Int),
        wait_for_snapshot_to_be_ready obs fuel 0 (-1) 0 [] = some (K, T, L) →
        (obs K).status = "available" ∧
        (∀ j < K, (obs j).status ≠ "available") ∧
        T = 10 * K ∧
        L = emittedSpec (-1) ((List.range K).map (fun j => (obs j).percentProgress))) ∧
    ((∀ j, (obs j).status ≠ "available") →
      ∀ fuel, wait_for_snapshot_to_be_ready obs fuel 0 (-1) 0 [] = none) := by
  constructor
  · intro fuel K T L h
    obtain ⟨-, hst, hmid, hT, hL⟩ := wait_go obs fuel 0 (-1) 0 [] K T L h
    refine ⟨hst, fun j hj => hmid j (Nat.zero_le _) hj, by omega, ?_⟩
    rw [hL, List.range_eq_range']
    simp
  · intro h fuel
    exact wait_never obs h fuel 0 (-1) 0 []

/-- Witness for C8: a history that becomes available at poll 2 (percent 30
observed twice beforehand, printed once), and a never-available history. -/
theorem c8_readiness_waiter_witness :
    ((fun j => if j < 2 then PollObs.mk "creating" 30 else PollObs.mk "available" 100) 2).status
        = "available" ∧
    (20 : Nat) = 10 * 2 ∧
    ([30] : List Int) = emittedSpec (-1) ((List.range 2).map
      (fun j => ((fun j => if j < 2 then PollObs.mk "creating" 30
        else PollObs.mk "available" 100) j).percentProgress)) ∧
    wait_for_snapshot_to_be_ready (fun _ => PollObs.mk "creating" 0) 7 0 (-1) 0 [] = none := by
  have h1 := (c8_readiness_waiter
      (fun j => if j < 2 then PollObs.mk "creating" 30 else PollObs.mk "available" 100)).1
      5 2 20 [30] (by decide)
  have h2 := (c8_readiness_waiter (fun _ => PollObs.mk "creating" 0)).2
      (fun j => by decide) 7
  exact ⟨h1.1, h1.2.2.1, h1.2.2.2, h2⟩

theorem splitOnColon_ne_nil : ∀ (l : List Char), splitOnColon l ≠ [] := by
  intro l
  cases l with
  | nil => simp [splitOnColon]
  | cons c rest =>
    rw [splitOnColon]
    by_cases hc : (c == ':') = true
    · simp [hc]
    · simp [hc]

theorem splitOnColon_headD :
    ∀ (l : List Char), (splitOnColon l).headD [] = l.takeWhile (fun c => c != ':') := by
  intro l
  induction l with
  | nil => rfl
  | cons c rest ih =>
    rw [splitOnColon, List.takeWhile_cons]
    by_cases hc : (c == ':') = true
    · rw [if_pos hc]
      have hb : (c != ':') = false := by
        simp only [bne]
        rw [hc]
        rfl
      rw [hb]
      rfl
    · rw [if_neg hc]
      have hb : (c != ':') = true := by
        simp only [bne]
        rw [Bool.eq_false_iff.mpr hc]
        rfl
      rw [hb]
      simp only [List.headD_cons, if_true]
      rw [ih]

theorem splitOnColon_getD_one :
    ∀ (l : List Char), ':' ∈ l →
      (splitOnColon l).getD 1 [] = segmentAfterFirstColon l := by
  intro l
  induction l with
  | nil => intro h; simp at h
  | cons c rest ih =>
    intro hmem
    rw [splitOnColon, segmentAfterFirstColon, List.dropWhile_cons]
    by_cases hc : (c == ':') = true
    · rw [if_pos hc]
      have hb : (c != ':') = false := by
        simp only [bne]
        rw [hc]
        rfl
      rw [hb]
      simp only [Bool.false_eq_true, if_false, List.drop_succ_cons, List.drop_zero]
      cases hr : splitOnColon rest with
      | nil => exact absurd hr (splitOnColon_ne_nil rest)
      | cons h0 t0 =>
        have hhd := splitOnColon_headD rest
        rw [hr] at hhd
        simpa using hhd
    · have hceq : c ≠ ':' := by simpa using hc
      have hmem' : ':' ∈ rest := by
        rcases List.mem_cons.mp hmem with h0 | h0
        · exact absurd h0.symm hceq
        · exact h0
      rw [if_neg hc]
      have hb : (c != ':') = true := by
        simp only [bne]
        rw [Bool.eq_false_iff.mpr hc]
        rfl
      rw [hb]
      simp only [if_true]
      have hrec := ih hmem'
      rw [segmentAfterFirstColon] at hrec
      rw [← hrec]
      cases hr : splitOnColon rest with
      | nil => exact absurd hr (splitOnColon_ne_nil rest)
      | cons h0 t0 => simp

/-- Searching the reversed range finds the largest index satisfying the
predicate. -/
theorem find_reverse_range (p : Nat → Bool) :
    ∀ (n R : Nat), R ≤ n → p R = true → (∀ j, R < j → j ≤ n → p j = false) →
      (List.range (n + 1)).reverse.find? p = some R := by
  intro n
  induction n with
  | zero =>
    intro R hR hp _
    have h0 : R = 0 := by omega
    subst h0
    rw [show (List.range 1).reverse = [0] from rfl]
    exact findHeadTrue hp
  | succ n ihn =>
    intro R hR hp habove
    have hrev : (List.range (n + 2)).reverse = (n + 1) :: (List.range (n + 1)).reverse := by
      rw [List.range_succ, List.reverse_append]
      simp
    rw [hrev]
    by_cases hRtop : R = n + 1
    · subst hRtop
      exact findHeadTrue hp
    · have hfalse : p (n + 1) = false := habove (n + 1) (by omega) (le_refl _)
      rw [findHeadFalse hfalse]
      exact ihn R (by omega) hp (fun j h1 h2 => habove j h1 (by omega))

theorem digit_ne_colon (c : Char) (h : c.isDigit = true) : c ≠ ':' := by
  intro h0
  subst h0
  exact absurd h (by decide)

/-- A tail starting inside a colon-free block fails the pattern check. -/
theorem checkTail_head_in {l₁ : List Char} (l₂ : List Char) {i : Nat}
    (hi : i < l₁.length) (hfree : ∀ c ∈ l₁, c ≠ ':') :
    checkTail ((l₁ ++ l₂).drop i) = false := by
  rw [List.drop_append_of_le_length (by omega)]
  cases hd : l₁.drop i with
  | nil =>
    rw [List.drop_eq_nil_iff] at hd
    omega
  | cons c cs =>
    have hc : c ∈ l₁ := List.mem_of_mem_drop (hd ▸ List.mem_cons_self c cs)
    rw [List.cons_append, checkTail]
    have hbeq : (c == ':') = false := by
      simpa using hfree c hc
    simp [hbeq]

/-- A tail starting anywhere in a colon-free list fails the pattern check. -/
theorem checkTail_drop_no_colon {l : List Char} (h : ':' ∉ l) (m : Nat) :
    checkTail (l.drop m) = false := by
  cases hd : l.drop m with
  | nil => rfl
  | cons c cs =>
    have hc : c ∈ l := List.mem_of_mem_drop (hd ▸ List.mem_cons_self c cs)
    rw [checkTail]
    have hbeq : (c == ':') = false := by
      have : c ≠ ':' := fun h0 => h (h0 ▸ hc)
      simpa using this
    simp [hbeq]

/-- The tail starting at the `:snapshot:` colon fails the digit check. -/
theorem checkTail_snap (X : List Char) :
    checkTail (':' :: ("snapshot".data ++ X)) = false := by
  rw [checkTail]
  have hall : (("snapshot".data ++ X).take 12).all (fun c => c.isDigit) = false := by
    rw [List.take_append_eq_append_take,
      List.take_of_length_le (l := "snapshot".data) (by decide), List.all_append]
    have h8 : ("snapshot".data).all (fun c => c.isDigit) = false := by decide
    simp [h8]
  simp [hall]

/-- The tail starting at the final colon fails: the `:snapshot:` literal
would have to occur inside the colon-free remainder. -/
theorem checkTail_colon_tail {name : List Char} (hn : ':' ∉ name) :
    checkTail (':' :: name) = false := by
  rw [checkTail]
  apply Bool.eq_false_iff.mpr
  intro htrue
  simp only [Bool.and_eq_true] at htrue
  obtain ⟨-, hpre⟩ := htrue
  rw [List.isPrefixOf_iff_prefix] at hpre
  have hcol : ':' ∈ name.drop 12 := hpre.subset (by decide)
  exact hn (List.mem_of_mem_drop hcol)

/-- Every split position after the region block fails the pattern check. -/
theorem checkTail_rest2 (acct name : List Char) (ha1 : acct.length = 12)
    (ha2 : ∀ c ∈ acct, c.isDigit = true) (hn : ':' ∉ name) (i : Nat) :
    checkTail ((acct ++ (litSnapColon ++ name)).drop i) = false := by
  by_cases hi : i < 12
  · exact checkTail_head_in _ (by omega) (fun c hc => digit_ne_colon c (ha2 c hc))
  · have hdrop : (acct ++ (litSnapColon ++ name)).drop i =
        (litSnapColon ++ name).drop (i - 12) := by
      rw [List.drop_append_eq_append_drop, List.drop_eq_nil_of_le (by omega), ha1]
      simp
    rw [hdrop]
    have hlit : litSnapColon ++ name = ':' :: ("snapshot".data ++ (':' :: name)) := by
      rw [show litSnapColon = ':' :: ("snapshot".data ++ [':']) from rfl]
      simp
    rw [hlit]
    rcases Nat.eq_zero_or_pos (i - 12) with hm0 | hmpos
    · rw [hm0]
      exact checkTail_snap (':' :: name)
    · have hstep : (':' :: ("snapshot".data ++ (':' :: name))).drop (i - 12) =
          ("snapshot".data ++ (':' :: name)).drop (i - 13) := by
        rw [show i - 12 = (i - 13) + 1 by omega, List.drop_succ_cons]
      rw [hstep]
      have h8 : ("snapshot".data).length = 8 := rfl
      by_cases hm8 : i - 13 < 8
      · exact checkTail_head_in _ (by omega) (by decide)
      · have hsplit : ("snapshot".data ++ (':' :: name)).drop (i - 13) =
            (':' :: name).drop (i - 21) := by
          rw [show i - 13 = 8 + (i - 21) from by omega, ← h8, List.drop_append]
        rw [hsplit]
        rcases Nat.eq_zero_or_pos (i - 21) with h0 | hpos2
        · rw [h0]
          exact checkTail_colon_tail hn
        · rw [show i - 21 = (i - 22) + 1 by omega, List.drop_succ_cons]
          exact checkTail_drop_no_colon hn _

/-- Greedy group selection on a well-shaped ARN: the group is exactly the
region block. -/
theorem tryTail_arn (region acct name : List Char) (hr0 : region ≠ [])
    (hrn : '\n' ∉ region) (ha1 : acct.length = 12)
    (ha2 : ∀ c ∈ acct, c.isDigit = true) (hn : ':' ∉ name) :
    tryTail (region ++ (':' :: (acct ++ (litSnapColon ++ name)))) = some region.length := by
  rw [tryTail]
  have hlenR : region.length ≤
      (region ++ (':' :: (acct ++ (litSnapColon ++ name)))).length := by
    simp [List.length_append]
  apply find_reverse_range _ _ _ hlenR
  · rw [validSplit]
    have h1 : decide (1 ≤ region.length) = true := by
      simpa using List.length_pos.mpr hr0
    have h2 : ((region ++ (':' :: (acct ++ (litSnapColon ++ name)))).take
        region.length).all (fun c => decide (c ≠ '\n')) = true := by
      rw [List.take_left, List.all_eq_true]
      intro c hc
      simp only [decide_eq_true_eq]
      exact fun h0 => hrn (h0 ▸ hc)
    have h3 : checkTail ((region ++ (':' :: (acct ++ (litSnapColon ++ name)))).drop
        region.length) = true := by
      rw [List.drop_left, checkTail]
      have ht12 : (acct ++ (litSnapColon ++ name)).take 12 = acct := by
        rw [List.take_append_of_le_length (by omega), List.take_of_length_le (by omega)]
      have hd12 : (acct ++ (litSnapColon ++ name)).drop 12 = litSnapColon ++ name :=
        List.drop_left' ha1
      rw [ht12, hd12, ha1]
      have hb3 : acct.all (fun c => c.isDigit) = true := by
        rw [List.all_eq_true]
        exact ha2
      have hb4 : litSnapColon.isPrefixOf (litSnapColon ++ name) = true := by
        rw [List.isPrefixOf_iff_prefix]
        exact List.prefix_append _ _
      rw [hb3, hb4]
      rfl
    rw [h1, h2, h3]
    rfl
  · intro j hj1 hj2
    obtain ⟨k, hk⟩ : ∃ k, j = region.length + 1 + k := ⟨j - region.length - 1, by omega⟩
    subst hk
    rw [validSplit]
    have hct : checkTail ((region ++ (':' :: (acct ++ (litSnapColon ++ name)))).drop
        (region.length + 1 + k)) = false := by
      have hdropj : (region ++ (':' :: (acct ++ (litSnapColon ++ name)))).drop
          (region.length + 1 + k) = (acct ++ (litSnapColon ++ name)).drop k := by
        rw [show region.length + 1 + k = region.length + (1 + k) from by omega,
          List.drop_append, show 1 + k = k + 1 from by omega, List.drop_succ_cons]
      rw [hdropj]
      exact checkTail_rest2 acct name ha1 ha2 hn _
    rw [hct]
    simp

theorem matchAtStart_arn (region acct name : List Char) (hr0 : region ≠ [])
    (hrn : '\n' ∉ region) (ha1 : acct.length = 12)
    (ha2 : ∀ c ∈ acct, c.isDigit = true) (hn : ':' ∉ name) :
    matchAtStart (arnOf region acct name) = some (region.length + 35) := by
  rw [arnOf, matchAtStart]
  have hpre : litArn.isPrefixOf
      (litArn ++ (region ++ (':' :: (acct ++ (litSnapColon ++ name))))) = true := by
    rw [List.isPrefixOf_iff_prefix]
    exact List.prefix_append _ _
  rw [if_pos hpre, List.drop_left' (show litArn.length = 12 from rfl),
    tryTail_arn region acct name hr0 hrn ha1 ha2 hn]
  rfl

theorem arn_drop (region acct name : List Char) (ha1 : acct.length = 12) :
    (arnOf region acct name).drop (region.length + 35) = name := by
  rw [arnOf]
  rw [show region.length + 35 = litArn.length + (region.length + 23) from by
    rw [show litArn.length = 12 from rfl]; omega]
  rw [List.drop_append]
  rw [List.drop_append 23, show (23 : Nat) = 22 + 1 from rfl, List.drop_succ_cons]
  rw [show (22 : Nat) = 12 + 10 from rfl, ← ha1, List.drop_append]
  exact List.drop_left' (show litSnapColon.length = 10 from rfl)

theorem matchAtStart_none_no_colon {s : List Char} (h : ':' ∉ s) :
    matchAtStart s = none := by
  rw [matchAtStart, if_neg]
  intro hp
  rw [List.isPrefixOf_iff_prefix] at hp
  exact h (hp.subset (by decide))

theorem subArnGo_no_colon :
    ∀ (fuel : Nat) (s : List Char), s.length ≤ fuel → ':' ∉ s →
      subArnGo fuel s = s := by
  intro fuel
  induction fuel with
  | zero =>
    intro s hl _
    have h0 : s = [] := List.length_eq_zero.mp (by omega)
    subst h0
    rfl
  | succ fuel ih =>
    intro s hl hnc
    cases s with
    | nil => rfl
    | cons c cs =>
      rw [subArnGo, matchAtStart_none_no_colon hnc]
      show c :: subArnGo fuel cs = c :: cs
      rw [ih cs (by simp at hl; omega) (fun h => hnc (List.mem_cons_of_mem _ h))]

/-- The substitution on a well-shaped ARN removes the whole prefix, leaving
the snapshot name. -/
theorem subArn_arn (region acct name : List Char) (hr0 : region ≠ [])
    (hrn : '\n' ∉ region) (ha1 : acct.length = 12)
    (ha2 : ∀ c ∈ acct, c.isDigit = true) (hn : ':' ∉ name) :
    subArn (String.mk (arnOf region acct name)) = String.mk name := by
  rw [subArn]
  show String.mk (subArnGo (arnOf region acct name).length (arnOf region acct name)) = _
  have hlen : (arnOf region acct name).length = name.length + (region.length + 35) := by
    rw [arnOf]
    simp only [List.length_append, List.length_cons,
      show litArn.length = 12 from rfl, show litSnapColon.length = 10 from rfl, ha1]
    omega
  obtain ⟨c, cs, hcons⟩ : ∃ c cs, arnOf region acct name = c :: cs := by
    cases harn : arnOf region acct name with
    | nil =>
      rw [harn] at hlen
      simp at hlen
      omega
    | cons c cs => exact ⟨c, cs, rfl⟩
  have hm := matchAtStart_arn region acct name hr0 hrn ha1 ha2 hn
  have hdrop := arn_drop region acct name ha1
  rw [hcons] at hm hdrop hlen ⊢
  have hlcs : (c :: cs).length = cs.length + 1 := by simp
  rw [hlcs, subArnGo, hm]
  show String.mk (subArnGo cs.length (List.drop (region.length + 35) (c :: cs))) =
    String.mk name
  rw [hdrop, subArnGo_no_colon cs.length name (by rw [List.length_cons] at hlen; omega) hn]

/-- Claim C5: identifier derivation on both sides.  Source side: with a
colon present, the derived identifier is the segment after the first colon
suffixed "-recrypted"; otherwise the whole identifier suffixed.  Destination
side: a well-shaped shared-snapshot ARN prefix is stripped and "-copy"
appended; an identifier without the pattern (here: colon-free) is kept
whole.  Including the two examples named by the specification. -/
theorem c5_identifier_derivation :
    (∀ ident : String, ':' ∈ ident.data →
        (deriveRecryptId ident).data =
          segmentAfterFirstColon ident.data ++ "-recrypted".data) ∧
    (∀ ident : String, ':' ∉ ident.data →
        deriveRecryptId ident = ident ++ "-recrypted") ∧
    (∀ region acct name : List Char, region ≠ [] → '\n' ∉ region →
        acct.length = 12 → (∀ c ∈ acct, c.isDigit = true) → ':' ∉ name →
        deriveCopyId (String.mk (arnOf region acct name)) = String.mk name ++ "-copy") ∧
    (∀ ident : String, ':' ∉ ident.data → deriveCopyId ident = ident ++ "-copy") ∧
    deriveCopyId "arn:aws:rds:us-east-1:123456789012:snapshot:mydb-snap" = "mydb-snap-copy" ∧
    deriveRecryptId "some:thing:mydb-snap-2024" = "thing-recrypted" := by
  refine ⟨?_, ?_, ?_, ?_, by decide, by decide⟩
  · intro ident hmem
    have hcont : ident.data.contains ':' = true := by
      rw [List.contains_eq_any_beq, List.any_eq_true]
      exact ⟨':', hmem, by simp⟩
    rw [deriveRecryptId, if_pos hcont, String.data_append,
      splitOnColon_getD_one ident.data hmem]
  · intro ident hmem
    have hcont : ident.data.contains ':' = false := by
      apply Bool.eq_false_iff.mpr
      intro htrue
      rw [List.contains_eq_any_beq, List.any_eq_true] at htrue
      obtain ⟨x, hx, hbeq⟩ := htrue
      rw [beq_iff_eq] at hbeq
      exact hmem (hbeq ▸ hx)
    rw [deriveRecryptId, if_neg (by rw [hcont]; exact Bool.false_ne_true)]
  · intro region acct name hr0 hrn ha1 ha2 hn
    rw [deriveCopyId, subArn_arn region acct name hr0 hrn ha1 ha2 hn]
  · intro ident hmem
    rw [deriveCopyId, subArn, subArnGo_no_colon _ _ (le_refl _) hmem]

/-- Witness for C5. -/
theorem c5_identifier_derivation_witness :
    (deriveRecryptId "auto:db-snap").data =
      segmentAfterFirstColon "auto:db-snap".data ++ "-recrypted".data ∧
    deriveRecryptId "plain-id" = "plain-id" ++ "-recrypted" ∧
    deriveCopyId (String.mk (arnOf "eu-west-1".data "210987654321".data
        "db2-snap-recrypted".data)) = String.mk "db2-snap-recrypted".data ++ "-copy" ∧
    deriveCopyId "local-id" = "local-id" ++ "-copy" :=
  ⟨c5_identifier_derivation.1 "auto:db-snap" (by decide),
   c5_identifier_derivation.2.1 "plain-id" (by decide),
   c5_identifier_derivation.2.2.1 "eu-west-1".data "210987654321".data
     "db2-snap-recrypted".data (by decide) (by decide) (by decide) (by decide) (by decide),
   c5_identifier_derivation.2.2.2.1 "local-id" (by decide)⟩

/-- Claim C9: an empty shared listing makes the importer exit with status 1
before any copy, wait, delete, or manual-listing query is performed (the
action trace is empty). -/
theorem c9_empty_shared_exit (manualOf : String → List Snapshot)
    (expected : Nat) (debug : Bool) (topicArn : String) :
    importerMain [] manualOf expected debug topicArn =
      some (RunOutcome.emptyShared, []) ∧
    runExitCode RunOutcome.emptyShared = 1 :=
  ⟨rfl, rfl⟩

theorem bumpOwned_keys :
    ∀ (owned : List (String × Nat)) (k k' : String),
      k' ∈ (bumpOwned k owned).map (fun p => p.1) →
      k' = k ∨ k' ∈ owned.map (fun p => p.1) := by
  intro owned
  induction owned with
  | nil =>
    intro k k' h
    simp only [bumpOwned, List.map_cons, List.map_nil] at h
    exact Or.inl (List.mem_singleton.mp h)
  | cons p rest ih =>
    obtain ⟨k0, n0⟩ := p
    intro k k' h
    rw [bumpOwned] at h
    by_cases hk : (k0 == k) = true
    · rw [if_pos hk] at h
      rw [List.map_cons] at h
      rcases List.mem_cons.mp h with h1 | h1
      · left
        rw [h1]
        exact beq_iff_eq.mp hk
      · right
        rw [List.map_cons]
        exact List.mem_cons_of_mem _ h1
    · rw [if_neg hk] at h
      rw [List.map_cons] at h
      rcases List.mem_cons.mp h with h1 | h1
      · right
        rw [List.map_cons, h1]
        exact List.mem_cons_self _ _
      · rcases ih k k' h1 with h2 | h2
        · left; exact h2
        · right
          rw [List.map_cons]
          exact List.mem_cons_of_mem _ h2

theorem copyPhase_keys :
    ∀ (l : List Snapshot) (cnt : Nat) (owned : List (String × Nat)) (acts : List Act)
      (k : String),
      k ∈ ((importerCopyPhase l cnt owned acts).2.1.map (fun p => p.1)) →
      k ∈ owned.map (fun p => p.1) ∨ k ∈ copiedInstances l := by
  intro l
  induction l with
  | nil =>
    intro cnt owned acts k h
    exact Or.inl h
  | cons s rest ih =>
    intro cnt owned acts k h
    rw [importerCopyPhase] at h
    by_cases hp : passesSharedFilter s = true
    · rw [if_pos hp] at h
      rcases ih _ _ _ k h with h0 | h0
      · rcases bumpOwned_keys owned s.dbInstanceIdentifier k h0 with h1 | h1
        · right
          rw [copiedInstances, List.filter_cons_of_pos hp, List.map_cons, h1]
          exact List.mem_cons_self _ _
        · left; exact h1
      · right
        rw [copiedInstances, List.filter_cons_of_pos hp, List.map_cons]
        exact List.mem_cons_of_mem _ h0
    · rw [if_neg hp] at h
      rcases ih _ _ _ k h with h0 | h0
      · left; exact h0
      · right
        rw [copiedInstances, List.filter_cons_of_neg hp]
        exact h0

theorem copyPhase_acts :
    ∀ (l : List Snapshot) (cnt : Nat) (owned : List (String × Nat)) (acts : List Act)
      (a : Act), a ∈ (importerCopyPhase l cnt owned acts).2.2 →
      a ∈ acts ∨ (∃ s t, a = Act.copySnap s t) ∨ (∃ t, a = Act.waitSnap t) := by
  intro l
  induction l with
  | nil =>
    intro cnt owned acts a h
    exact Or.inl h
  | cons s rest ih =>
    intro cnt owned acts a h
    rw [importerCopyPhase] at h
    by_cases hp : passesSharedFilter s = true
    · rw [if_pos hp] at h
      rcases ih _ _ _ a h with h0 | h0
      · rcases List.mem_append.mp h0 with h1 | h1
        · exact Or.inl h1
        · rcases List.mem_cons.mp h1 with rfl | h2
          · exact Or.inr (Or.inl ⟨_, _, rfl⟩)
          · rcases List.mem_cons.mp h2 with rfl | h3
            · exact Or.inr (Or.inr ⟨_, rfl⟩)
            · simp at h3
      · exact Or.inr h0
    · rw [if_neg hp] at h
      exact ih _ _ _ a h

theorem getOldestGo_mem :
    ∀ (rest : List Snapshot) (acc : Option Snapshot) (r : Snapshot),
      getOldestGo acc rest = some r → acc = some r ∨ r ∈ rest := by
  intro rest
  induction rest with
  | nil =>
    intro acc r h
    exact Or.inl h
  | cons snap rest' ih =>
    intro acc r h
    rw [getOldestGo] at h
    by_cases hm : isRecrypted snap = true
    · rw [if_pos hm] at h
      cases h1 : snap.snapshotCreateTime with
      | none =>
        rw [h1] at h
        simp at h
      | some t1 =>
        cases h2 : (acc.getD snap).snapshotCreateTime with
        | none =>
          simp only [h1, h2] at h
          exact absurd h (by simp)
        | some t2 =>
          simp only [h1, h2] at h
          rcases ih _ _ h with h0 | h0
          · have hr := Option.some.inj h0
            by_cases hlt : t1 < t2
            · rw [if_pos hlt] at hr
              right
              rw [← hr]
              exact List.mem_cons_self _ _
            · rw [if_neg hlt] at hr
              cases acc with
              | none =>
                right
                rw [← hr]
                exact List.mem_cons_self _ _
              | some a =>
                left
                rw [← hr]
                rfl
          · right
            exact List.mem_cons_of_mem _ h0
    · rw [if_neg hm] at h
      rcases ih _ _ h with h0 | h0
      · exact Or.inl h0
      · exact Or.inr (List.mem_cons_of_mem _ h0)

theorem get_oldest_mem (snaps : List Snapshot) (r : Snapshot)
    (h : get_oldest_manual_recrypted_rds_snapshots snaps = some r) : r ∈ snaps := by
  rcases getOldestGo_mem snaps none r h with h0 | h0
  · simp at h0
  · exact h0

theorem pruneLoop_del_mem (countFn : List Snapshot → Nat) :
    ∀ (fuel : Nat) (snaps rem del : List Snapshot),
      pruneLoop countFn fuel snaps = some (rem, del) → ∀ d ∈ del, d ∈ snaps := by
  intro fuel
  induction fuel with
  | zero =>
    intro snaps rem del h d hd
    rw [pruneLoop] at h
    by_cases hgt : countFn snaps > 2
    · rw [if_pos hgt] at h
      cases h
    · rw [if_neg hgt] at h
      have hdel : del = [] := by
        have h2 := congrArg Prod.snd (Option.some.inj h)
        simpa using h2.symm
      rw [hdel] at hd
      simp at hd
  | succ fuel ih =>
    intro snaps rem del h d hd
    rw [pruneLoop] at h
    by_cases hgt : countFn snaps > 2
    · rw [if_pos hgt] at h
      cases hv : get_oldest_manual_recrypted_rds_snapshots snaps with
      | none =>
        rw [hv] at h
        cases h
      | some v =>
        rw [hv] at h
        have h' : Option.map (fun p => (p.1, v :: p.2))
            (pruneLoop countFn fuel (deleteById v.dbSnapshotIdentifier snaps)) =
            some (rem, del) := h
        cases hrec : pruneLoop countFn fuel (deleteById v.dbSnapshotIdentifier snaps) with
        | none =>
          rw [hrec] at h'
          simp at h'
        | some p =>
          obtain ⟨p1, p2⟩ := p
          rw [hrec] at h'
          have hpair : p1 = rem ∧ v :: p2 = del := by
            simpa using h'
          rw [← hpair.2] at hd
          rcases List.mem_cons.mp hd with rfl | hd'
          · exact get_oldest_mem snaps d hv
          · have hmem := ih _ _ _ hrec d hd'
            exact (List.mem_filter.mp hmem).1
    · rw [if_neg hgt] at h
      have hdel : del = [] := by
        have h2 := congrArg Prod.snd (Option.some.inj h)
        simpa using h2.symm
      rw [hdel] at hd
      simp at hd

theorem prunePhase_acts (manualOf : String → List Snapshot) :
    ∀ (keys : List String) (acts : List Act),
      importerPrunePhase manualOf keys = some acts →
      ∀ a ∈ acts,
        (∃ db, db ∈ keys ∧ a = Act.queryManual db) ∨
        (∃ db, db ∈ keys ∧ ∃ s, s ∈ manualOf db ∧
          a = Act.deleteSnap s.dbSnapshotIdentifier) := by
  intro keys
  induction keys with
  | nil =>
    intro acts h a ha
    have : acts = [] := (Option.some.inj h).symm
    rw [this] at ha
    simp at ha
  | cons db rest ih =>
    intro acts h a ha
    rw [importerPrunePhase] at h
    cases hp : importerPrune (manualOf db) with
    | none =>
      rw [hp] at h
      cases h
    | some pr =>
      obtain ⟨rem, del⟩ := pr
      rw [hp] at h
      cases hr : importerPrunePhase manualOf rest with
      | none =>
        rw [hr] at h
        cases h
      | some acts' =>
        rw [hr] at h
        have hacts : acts = (Act.queryManual db ::
            del.map (fun d => Act.deleteSnap d.dbSnapshotIdentifier)) ++ acts' := by
          have := Option.some.inj h
          exact this.symm
        rw [hacts] at ha
        rcases List.mem_append.mp ha with h0 | h0
        · rcases List.mem_cons.mp h0 with rfl | h1
          · exact Or.inl ⟨db, List.mem_cons_self _ _, rfl⟩
          · obtain ⟨d, hd, hda⟩ := List.mem_map.mp h1
            right
            refine ⟨db, List.mem_cons_self _ _, d, ?_, hda.symm⟩
            exact pruneLoop_del_mem _ _ _ _ _ hp d hd
        · rcases ih acts' hr a h0 with ⟨db', hdb', heq⟩ | ⟨db', hdb', s, hs, heq⟩
          · exact Or.inl ⟨db', List.mem_cons_of_mem _ hdb', heq⟩
          · exact Or.inr ⟨db', List.mem_cons_of_mem _ hdb', s, hs, heq⟩

/-- Claim C10: the importer prunes only the instances whose shared
snapshots were copied in the current run — every manual-listing query in
the trace targets an instance with a copied shared snapshot, and every
deleted record comes from such an instance's manual listing (so snapshots
of any other instance are never counted or deleted, however many matching
local copies they have). -/
theorem c10_importer_prune_scope (shared : List Snapshot)
    (manualOf : String → List Snapshot) (expected : Nat) (debug : Bool)
    (topicArn : String) (out : RunOutcome) (tr : List Act)
    (hlabel : ∀ i : String, ∀ s ∈ manualOf i, s.dbInstanceIdentifier = i)
    (hrun : importerMain shared manualOf expected debug topicArn = some (out, tr)) :
    (∀ db, Act.queryManual db ∈ tr → db ∈ copiedInstances shared) ∧
    (∀ x, Act.deleteSnap x ∈ tr →
      ∃ s, s.dbInstanceIdentifier ∈ copiedInstances shared ∧
        s ∈ manualOf s.dbInstanceIdentifier ∧ s.dbSnapshotIdentifier = x) := by
  rw [importerMain] at hrun
  by_cases hsh : shared.isEmpty = true
  · rw [if_pos hsh] at hrun
    have htr : tr = [] := by
      have h2 := congrArg Prod.snd (Option.some.inj hrun)
      simpa using h2.symm
    rw [htr]
    constructor
    · intro db hdb
      simp at hdb
    · intro x hx
      simp at hx
  · rw [if_neg hsh] at hrun
    cases hpk : importerPrunePhase manualOf
        ((importerCopyPhase shared 0 [] []).2.1.map (fun p => p.1)) with
    | none =>
      rw [hpk] at hrun
      cases hrun
    | some acts2 =>
      rw [hpk] at hrun
      have htr : tr = (importerCopyPhase shared 0 [] []).2.2 ++ acts2 := by
        have h2 := congrArg Prod.snd (Option.some.inj hrun)
        simpa using h2.symm
      constructor
      · intro db hdb
        rw [htr] at hdb
        rcases List.mem_append.mp hdb with h0 | h0
        · rcases copyPhase_acts shared 0 [] [] _ h0 with h1 | h1 | h1
          · simp at h1
          · obtain ⟨s0, t0, h1⟩ := h1
            simp at h1
          · obtain ⟨t0, h1⟩ := h1
            simp at h1
        · rcases prunePhase_acts manualOf _ _ hpk _ h0 with
            ⟨db', hdb', heq⟩ | ⟨db', hdb', s, hs, heq⟩
          · have hdbeq : db = db' := by
              simpa using heq
            rcases copyPhase_keys shared 0 [] [] db' hdb' with h2 | h2
            · simp at h2
            · rw [hdbeq]
              exact h2
          · simp at heq
      · intro x hx
        rw [htr] at hx
        rcases List.mem_append.mp hx with h0 | h0
        · rcases copyPhase_acts shared 0 [] [] _ h0 with h1 | h1 | h1
          · simp at h1
          · obtain ⟨s0, t0, h1⟩ := h1
            simp at h1
          · obtain ⟨t0, h1⟩ := h1
            simp at h1
        · rcases prunePhase_acts manualOf _ _ hpk _ h0 with
            ⟨db', hdb', heq⟩ | ⟨db', hdb', s, hs, heq⟩
          · simp at heq
          · have hxid : x = s.dbSnapshotIdentifier := by
              simpa using heq
            have hinst : s.dbInstanceIdentifier = db' := hlabel db' s hs
            rcases copyPhase_keys shared 0 [] [] db' hdb' with h2 | h2
            · simp at h2
            · exact ⟨s, by rw [hinst]; exact h2, by rw [hinst]; exact hs, hxid.symm⟩

/-- Witness for C10: one shared snapshot for instance db1; the run copies
it and prunes only db1. -/
theorem c10_importer_prune_scope_witness :
    "db1" ∈ copiedInstances
      [Snapshot.mk "arn:aws:rds:r1:123456789012:snapshot:db1-snap-recrypted"
        "arn0" "db1" (some 1)] :=
  (c10_importer_prune_scope
    [Snapshot.mk "arn:aws:rds:r1:123456789012:snapshot:db1-snap-recrypted"
      "arn0" "db1" (some 1)]
    (fun i => if i == "db1" then
        [Snapshot.mk "db1-a-recrypted-copy" "" "db1" (some 1),
         Snapshot.mk "db1-b-recrypted-copy" "" "db1" (some 2)]
      else [])
    1 false "t" RunOutcome.success
    [Act.copySnap "arn0" "db1-snap-recrypted-copy",
     Act.waitSnap "db1-snap-recrypted-copy",
     Act.queryManual "db1"]
    (by
      intro i s hs
      simp only [] at hs
      by_cases hi : (i == "db1") = true
      · rw [if_pos hi] at hs
        have hinst : s.dbInstanceIdentifier = "db1" := by
          rcases List.mem_cons.mp hs with rfl | hs1
          · rfl
          · rcases List.mem_cons.mp hs1 with rfl | hs2
            · rfl
            · simp at hs2
        rw [hinst]
        exact (beq_iff_eq.mp hi).symm
      · rw [if_neg hi] at hs
        simp at hs)
    (by decide)).1 "db1" (by decide)

end DrRds
